import Mathlib

/-!
Verification development for the finance-research agent backend
(`agent_service.py`, `worker.py`): a shallow embedding of the checkpoint
store, the search collaborator, the three pipeline stages, the streaming
runner, and the worker relay/normalizer, together with theorems settling
the behavioural claims about them.

Modelling conventions:
* JSON-serializable Python values are the inductive `Val`; `json.dumps` and
  `json.loads` are modelled by `jsonDumps`/`jsonParse` over the JSON
  fragment the program exercises (objects, arrays, strings with the common
  backslash escapes, integers, booleans, null; no floats and no `\u`
  string escapes, which never occur on the wire here, and non-ASCII text
  is emitted verbatim rather than `\uXXXX`-escaped).
* Python dicts are insertion-ordered association lists (`alSet`/`alGet`).
* Exceptions are modelled by `Option`/`Except` results or by explicit
  "raises" flags on collaborator models; every handler in the source
  catches broad `Exception`, so the embedded functions are total.
* Strings are processed as `List Char` (Python strings are sequences of
  code points, so slicing/striping agree position-for-position).
-/

/-- JSON-compatible Python value: None, bool, int, str, list, dict
(insertion-ordered fields). -/
inductive Val where
  | vNull
  | vBool (b : Bool)
  | vNum (n : Int)
  | vStr (s : String)
  | vArr (xs : List Val)
  | vObj (fields : List (String × Val))

/-- Decimal digit character, for rendering integers the way `json.dumps`
prints them. -/
def digitChar (d : Nat) : Char :=
  match d with
  | 0 => '0' | 1 => '1' | 2 => '2' | 3 => '3' | 4 => '4'
  | 5 => '5' | 6 => '6' | 7 => '7' | 8 => '8' | _ => '9'

/-- Decimal digits of a natural number, most significant first. -/
def natChars (n : Nat) : List Char :=
  if _h : n < 10 then [digitChar n]
  else natChars (n / 10) ++ [digitChar (n % 10)]
  decreasing_by exact Nat.div_lt_self (by omega) (by omega)

/-- Decimal rendering of an integer (Python `json.dumps` prints ints in
decimal with a leading minus sign when negative). -/
def intChars (n : Int) : List Char :=
  if n < 0 then '-' :: natChars n.natAbs else natChars n.natAbs

/-- Lower-case hexadecimal digit character. -/
def hexDigit (d : Nat) : Char :=
  match d with
  | 0 => '0' | 1 => '1' | 2 => '2' | 3 => '3' | 4 => '4'
  | 5 => '5' | 6 => '6' | 7 => '7' | 8 => '8' | 9 => '9'
  | 10 => 'a' | 11 => 'b' | 12 => 'c' | 13 => 'd' | 14 => 'e' | _ => 'f'

/-- Four-digit hexadecimal rendering, as in a JSON `\uXXXX` escape. -/
def hexFour (n : Nat) : List Char :=
  [hexDigit (n / 4096 % 16), hexDigit (n / 256 % 16), hexDigit (n / 16 % 16), hexDigit (n % 16)]

/-- JSON escaping of one character, as `json.dumps` performs it: the short
escapes for quote, backslash and the common control characters, `\uXXXX`
for the remaining control characters, anything else verbatim. -/
def escChar (c : Char) : List Char :=
  if c = '"' then ['\\', '"']
  else if c = '\\' then ['\\', '\\']
  else if c = '\n' then ['\\', 'n']
  else if c = '\r' then ['\\', 'r']
  else if c = '\t' then ['\\', 't']
  else if c = '\x08' then ['\\', 'b']
  else if c = '\x0c' then ['\\', 'f']
  else if c.toNat < 32 then '\\' :: 'u' :: hexFour c.toNat
  else [c]

/-- JSON escaping of a character sequence. -/
def escL (s : List Char) : List Char := s.flatMap escChar

mutual
/-- Character stream produced by `json.dumps` (default separators: comma
followed by a space between items, colon followed by a space after keys). -/
def dumpsL : Val → List Char
  | .vNull => ['n', 'u', 'l', 'l']
  | .vBool true => ['t', 'r', 'u', 'e']
  | .vBool false => ['f', 'a', 'l', 's', 'e']
  | .vNum n => intChars n
  | .vStr s => '"' :: (escL s.data ++ ['"'])
  | .vArr xs => '[' :: (dumpsElemsL xs ++ [']'])
  | .vObj l => '{' :: (dumpsMembersL l ++ ['}'])
/-- Comma-space separated renderings of array elements. -/
def dumpsElemsL : List Val → List Char
  | [] => []
  | [v] => dumpsL v
  | v :: w :: rest => dumpsL v ++ ',' :: ' ' :: dumpsElemsL (w :: rest)
/-- Comma-space separated renderings of object members. -/
def dumpsMembersL : List (String × Val) → List Char
  | [] => []
  | [(k, v)] => ('"' :: escL k.data) ++ '"' :: ':' :: ' ' :: dumpsL v
  | (k, v) :: m :: rest =>
      (('"' :: escL k.data) ++ '"' :: ':' :: ' ' :: dumpsL v) ++ ',' :: ' ' :: dumpsMembersL (m :: rest)
end

/-- Model of `json.dumps` returning a string. -/
def jsonDumps (v : Val) : String := String.mk (dumpsL v)

/-- Whitespace set of Python `str.strip()` and of the regex class used by
the worker (space, tab, newline, carriage return, vertical tab, form feed). -/
def isPyWs (c : Char) : Bool :=
  c = ' ' || c = '\t' || c = '\n' || c = '\x0d' || c = '\x0b' || c = '\x0c'

/-- Whitespace the JSON grammar allows between tokens. -/
def isJsonWs (c : Char) : Bool :=
  c = ' ' || c = '\t' || c = '\n' || c = '\x0d'

/-- Drop leading JSON whitespace. -/
def skipWs (cs : List Char) : List Char := cs.dropWhile isJsonWs

/-- Decimal digit test. -/
def isDigitC (c : Char) : Bool := '0' ≤ c && c ≤ '9'

/-- Longest digit run at the head of the input, with the remainder. -/
def takeDigits : List Char → List Char × List Char
  | c :: cs =>
      if isDigitC c then
        let p := takeDigits cs
        (c :: p.1, p.2)
      else ([], c :: cs)
  | [] => ([], [])

/-- Numeric value of a digit run. -/
def digitsToNat (ds : List Char) : Nat :=
  ds.foldl (fun acc c => acc * 10 + (c.toNat - 48)) 0

/-- Parse the digits of a JSON integer; fails when no digit is present.
Per the scanner's number grammar (`0|[1-9][0-9]*`) a leading zero ends
the integer token at once, leaving any further digits as trailing
input (which the surrounding grammar then rejects). -/
def parseNatNum (cs : List Char) : Option (Nat × List Char) :=
  match cs with
  | '0' :: rest => some (0, rest)
  | _ =>
      let p := takeDigits cs
      if p.1 = [] then none else some (digitsToNat p.1, p.2)

/-- Inverse of the short escapes `jsonDumps` can produce, plus the
JSON-mandated `\/`. -/
def unescChar (c : Char) : Option Char :=
  if c = '"' then some '"'
  else if c = '\\' then some '\\'
  else if c = '/' then some '/'
  else if c = 'n' then some '\n'
  else if c = 'r' then some '\x0d'
  else if c = 't' then some '\t'
  else if c = 'b' then some '\x08'
  else if c = 'f' then some '\x0c'
  else none

/-- Parse the body of a JSON string literal after the opening quote
(structural on the input; `\uXXXX` is outside the modelled fragment).
In the default strict mode a raw control character inside the literal
is invalid and fails the parse. -/
def parseStrAux (acc : List Char) : List Char → Option (String × List Char)
  | c :: rest =>
      if c = '"' then some (String.mk acc.reverse, rest)
      else if c = '\\' then
        match rest with
        | e :: rest2 =>
            match unescChar e with
            | some ch => parseStrAux (ch :: acc) rest2
            | none => none
        | [] => none
      else if c.toNat < 32 then none
      else parseStrAux (c :: acc) rest
  | [] => none

mutual
/-- Fueled JSON value parser over the modelled fragment, following the
grammar `json.loads` accepts on it (the fuel only bounds nesting-driven
recursion; `jsonParse` supplies more fuel than any input can consume). -/
def parseVal : Nat → List Char → Option (Val × List Char)
  | 0, _ => none
  | fuel + 1, cs =>
      match skipWs cs with
      | [] => none
      | c :: rest =>
          if c = '{' then
            match parseMembers fuel rest with
            | some (ms, r) => some (Val.vObj ms, r)
            | none => none
          else if c = '[' then
            match parseElems fuel rest with
            | some (es, r) => some (Val.vArr es, r)
            | none => none
          else if c = '"' then
            match parseStrAux [] rest with
            | some (s, r) => some (Val.vStr s, r)
            | none => none
          else if c = 'n' then
            match rest with
            | 'u' :: 'l' :: 'l' :: r => some (Val.vNull, r)
            | _ => none
          else if c = 't' then
            match rest with
            | 'r' :: 'u' :: 'e' :: r => some (Val.vBool true, r)
            | _ => none
          else if c = 'f' then
            match rest with
            | 'a' :: 'l' :: 's' :: 'e' :: r => some (Val.vBool false, r)
            | _ => none
          else if c = '-' then
            match parseNatNum rest with
            | some (n, r) => some (Val.vNum (-(n : Int)), r)
            | none => none
          else if isDigitC c then
            match parseNatNum (c :: rest) with
            | some (n, r) => some (Val.vNum (n : Int), r)
            | none => none
          else none
/-- Parse object members up to and including the closing brace; after
a comma another member must follow (a trailing comma is invalid). -/
def parseMembers : Nat → List Char → Option (List (String × Val) × List Char)
  | 0, _ => none
  | fuel + 1, cs =>
      match skipWs cs with
      | [] => none
      | c :: rest =>
          if c = '}' then some ([], rest)
          else if c = '"' then
            match parseStrAux [] rest with
            | some (k, r1) =>
                match skipWs r1 with
                | ':' :: r2 =>
                    match parseVal fuel r2 with
                    | some (v, r3) =>
                        match skipWs r3 with
                        | ',' :: r4 =>
                            match parseMembers fuel r4 with
                            | some ([], _) => none
                            | some (m :: ms, r5) => some ((k, v) :: m :: ms, r5)
                            | none => none
                        | '}' :: r4 => some ([(k, v)], r4)
                        | _ => none
                    | none => none
                | _ => none
            | none => none
          else none
/-- Parse array elements up to and including the closing bracket; after
a comma another element must follow (a trailing comma is invalid). -/
def parseElems : Nat → List Char → Option (List Val × List Char)
  | 0, _ => none
  | fuel + 1, cs =>
      match skipWs cs with
      | [] => none
      | c :: rest =>
          if c = ']' then some ([], rest)
          else
            match parseVal fuel (c :: rest) with
            | some (v, r1) =>
                match skipWs r1 with
                | ',' :: r2 =>
                    match parseElems fuel r2 with
                    | some ([], _) => none
                    | some (e :: es, r3) => some (v :: e :: es, r3)
                    | none => none
                | ']' :: r2 => some ([v], r2)
                | _ => none
            | none => none
end

/-- Model of `json.loads`: parse one value, allow trailing whitespace,
reject anything further ("Extra data" in Python). Returns `none` where
`json.loads` raises. -/
def jsonParse (s : String) : Option Val :=
  match parseVal (s.data.length + 1) s.data with
  | some (v, r) => if skipWs r = [] then some v else none
  | none => none

/-- Python `str.strip()` on a character list. -/
def stripL (cs : List Char) : List Char :=
  ((cs.dropWhile isPyWs).reverse.dropWhile isPyWs).reverse

/-- Python `str.rstrip()` on a character list. -/
def rstripL (cs : List Char) : List Char :=
  (cs.reverse.dropWhile isPyWs).reverse

/-- Worker SSE block splitter: the split of `re.split` on the pattern
"newline, any whitespace, newline" (`SPLIT_SSE_RE`), fueled for totality.
A separator is a newline followed by a greedy whitespace run that contains
at least one further newline; the match ends at the last newline of the
run. The `\r?` alternatives of the source pattern are not modelled (no
carriage returns occur on this wire). -/
def sseSplitAux : Nat → List Char → List Char → List (List Char)
  | 0, cs, acc => [acc.reverse ++ cs]
  | _ + 1, [], acc => [acc.reverse]
  | fuel + 1, c :: rest, acc =>
      if c = '\n' then
        let run := rest.takeWhile isPyWs
        if run.contains '\n' then
          let after := (run.reverse.takeWhile (fun d => d != '\n')).reverse
          acc.reverse :: sseSplitAux fuel (after ++ rest.dropWhile isPyWs) []
        else sseSplitAux fuel rest (c :: acc)
      else sseSplitAux fuel rest (c :: acc)

/-- Split a raw chunk at SSE block boundaries (`SPLIT_SSE_RE.split`). -/
def sseSplit (cs : List Char) : List (List Char) := sseSplitAux (cs.length + 1) cs []

/-- Split at newline characters, as the per-block `splitlines()` of the
worker sees its input (no carriage returns occur on this wire; a trailing
empty piece stands for a trailing newline and is dropped by the empty-line
filter that always follows). -/
def splitNlAux : List Char → List Char → List (List Char)
  | [], acc => [acc.reverse]
  | c :: rest, acc =>
      if c = '\n' then acc.reverse :: splitNlAux rest []
      else splitNlAux rest (c :: acc)

/-- The lines of a block (`block.splitlines()` up to trailing-empty pieces
the caller filters out anyway). -/
def splitNl (cs : List Char) : List (List Char) := splitNlAux cs []

/-- Worker `DATA_PREFIX_RE` handling for one line: when the line matches
"optional whitespace, `data:` case-insensitively, optional whitespace",
remove that prefix (`sub` with count 1); otherwise leave the line as is. -/
def stripDataTag (line : List Char) : List Char :=
  let t := line.dropWhile isPyWs
  if (t.take 5).map Char.toLower = ("data:").data then
    (t.drop 5).dropWhile isPyWs
  else line

/-- Position of the first opening brace, as `str.find` locates it. -/
def firstBraceIdx (cs : List Char) : Option Nat := cs.findIdx? (fun c => c = '{')

/-- Position of the last closing brace, as `str.rfind` locates it. -/
def lastBraceIdx (cs : List Char) : Option Nat :=
  (cs.reverse.findIdx? (fun c => c = '}')).map (fun i => cs.length - 1 - i)

/-- Normalization of one SSE block inside `_process_and_publish_raw_chunk`:
collect the rstripped non-empty lines with any `data:` field prefix
removed, rejoin and strip them, then JSON-parse the result, falling back
to best-effort extraction of the first-brace/last-brace substring, and
finally to wrapping the block as a `raw` record. Returns the values
published for the block. -/
def handleBlock (block : List Char) : List Val :=
  let dataLines := (((splitNl block).map rstripL).filter (fun l => l ≠ [])).map stripDataTag
  let merged := stripL (List.intercalate ['\n'] dataLines)
  if merged = [] then []
  else
    match jsonParse (String.mk merged) with
    | some v => [v]
    | none =>
        match firstBraceIdx merged, lastBraceIdx merged with
        | some jstart, some jend =>
            if jstart < jend then
              let candidate := (merged.drop jstart).take (jend + 1 - jstart)
              match jsonParse (String.mk candidate) with
              | some v => [v]
              | none => [Val.vObj [("raw", Val.vStr (String.mk merged))]]
            else [Val.vObj [("raw", Val.vStr (String.mk merged))]]
        | _, _ => [Val.vObj [("raw", Val.vStr (String.mk merged))]]

/-- Model of `_process_and_publish_raw_chunk` (the events it publishes, in
order): split into SSE blocks, strip each, drop empties, and normalize
each block in block order. -/
def processRawChunk (cs : List Char) : List Val :=
  (((sseSplit cs).map stripL).filter (fun b => b ≠ [])).flatMap handleBlock

/-- Python `str()` of a scalar value, for the worker path that casts a
non-dict, non-list event to a string. The container cases are unreachable
there (containers are published directly) and stand in for `repr`. -/
def pyStr : Val → String
  | .vStr s => s
  | .vNull => "None"
  | .vBool true => "True"
  | .vBool false => "False"
  | .vNum n => String.mk (intChars n)
  | .vArr xs => jsonDumps (.vArr xs)
  | .vObj l => jsonDumps (.vObj l)

/-- Raw event shapes `_process_and_publish_event` accepts: an
already-structured value, or a text chunk (decoded bytes fold into the
text case). -/
inductive RawEvent where
  | struct (v : Val)
  | text (s : String)

/-- Normalization of a text event: strip it; produce nothing when empty;
JSON-parse the whole stripped text when possible; otherwise hand the
stripped text to the raw-chunk handler. -/
def processText (s : String) : List Val :=
  let t := stripL s.data
  if t = [] then []
  else
    match jsonParse (String.mk t) with
    | some v => [v]
    | none => processRawChunk t

/-- Model of `_process_and_publish_event` (the normalizer): dicts and
lists pass through unchanged; anything else is cast to text and
normalized. Returns the values published for the event, in order. -/
def processEvent : RawEvent → List Val
  | .struct (Val.vObj l) => [Val.vObj l]
  | .struct (Val.vArr xs) => [Val.vArr xs]
  | .struct (Val.vNull) => processText (pyStr Val.vNull)
  | .struct (Val.vBool b) => processText (pyStr (Val.vBool b))
  | .struct (Val.vNum n) => processText (pyStr (Val.vNum n))
  | .struct (Val.vStr s) => processText (pyStr (Val.vStr s))
  | .text s => processText s

/-- Python string slicing from the left: `s[:n]`. -/
def pyTake (n : Nat) (s : String) : String := String.mk (s.data.take n)

/-- PipelineState: a Python dict from string keys to JSON values, in
insertion order. -/
abbrev StateMap := List (String × Val)

/-- Dict lookup (`d.get(k)` / `d[k]`): value at the first matching key. -/
def alGet {α : Type} (m : List (String × α)) (k : String) : Option α :=
  (m.find? (fun p => p.1 == k)).map (fun p => p.2)

/-- Dict assignment (`d[k] = v`): update in place when the key exists,
append otherwise (Python dicts preserve insertion order). -/
def alSet {α : Type} (m : List (String × α)) (k : String) (v : α) : List (String × α) :=
  if m.any (fun p => p.1 == k) then m.map (fun p => if p.1 == k then (k, v) else p)
  else m ++ [(k, v)]

/-- Dict update (`d.update(other)`): assign every item of `other` into `m`
in iteration order. -/
def updateAll (m l : StateMap) : StateMap :=
  l.foldl (fun acc kv => alSet acc kv.1 kv.2) m

/-- Deployment namespace (`CHECKPOINT_NS`, default value of the
environment lookup). -/
def CHECKPOINT_NS : String := "financeResearch"

/-- Source `_compose_key`: the raw checkpoint key
`"namespace:user_id:thread_id"`. -/
def compose_key (ns uid tid : String) : String := ns ++ ":" ++ uid ++ ":" ++ tid

/-- Model of the optional structured checkpoint backend (`memory`, a
`RedisSaver` when the import and construction succeed). `hasX` flags model
the `hasattr` probes; `raises` flags model the probed method raising; the
keyed `store` backs the `save_checkpoint`/`load_checkpoint` method pair
(keyed by the composed identity it is given); `blob` records writes
accepted by the generic `save(ns, name, state)` / `write(ns, name, state)`
probes, which no load path of the source ever consults. The
`data.state` attribute fallback of `load_checkpoint` is not modelled: the
modelled backend returns a dict or nothing. -/
structure Mem where
  hasSaveCheckpoint : Bool
  hasSave : Bool
  hasWrite : Bool
  hasLoadCheckpoint : Bool
  saveRaises : Bool
  saveSingleRaises : Bool
  loadRaises : Bool
  store : List (String × StateMap)
  blob : List (String × StateMap)

/-- Model of the raw Redis key/value backend: reachable flag plus the
keyed contents. The JSON text round-trip (`json.dumps` on `set`,
`json.loads` on `get`) is the identity on the JSON-serializable states
stored here, so states are held directly. -/
structure RedisStore where
  up : Bool
  kv : List (String × StateMap)

/-- Persistence world: the optional structured backend plus the raw
key/value store. -/
structure World where
  mem : Option Mem
  rds : RedisStore

/-- Raw-Redis fallback of `save_checkpoint`: SET of the JSON-serialized
state at the composed key; an unreachable store raises, which the source
converts to `False`. -/
def redisSave (w : World) (state : StateMap) (uid tid : String) : Bool × World :=
  if w.rds.up then
    (true, { w with rds := { w.rds with kv := alSet w.rds.kv (compose_key CHECKPOINT_NS uid tid) state } })
  else (false, w)

/-- Model of `save_checkpoint`: probe the structured backend's
`save_checkpoint`, then `save` (two signatures), then `write`; any probe
that raises falls through to the raw Redis SET; return whether any
backend accepted the write. -/
def save_checkpoint (w : World) (state : StateMap) (uid tid : String) : Bool × World :=
  match w.mem with
  | some m =>
      if m.hasSaveCheckpoint then
        if m.saveRaises then redisSave w state uid tid
        else (true, { w with mem := some { m with store := alSet m.store (compose_key CHECKPOINT_NS uid tid) state } })
      else if m.hasSave then
        if m.saveRaises = false then
          (true, { w with mem := some { m with blob := alSet m.blob (compose_key CHECKPOINT_NS uid tid) state } })
        else if m.saveSingleRaises = false then
          (true, w)
        else redisSave w state uid tid
      else if m.hasWrite then
        if m.saveRaises then redisSave w state uid tid
        else (true, { w with mem := some { m with blob := alSet m.blob (compose_key CHECKPOINT_NS uid tid) state } })
      else redisSave w state uid tid
  | none => redisSave w state uid tid

/-- Raw-Redis fallback of `load_checkpoint`: GET at the composed key; an
absent key or an unreachable store yields the empty mapping. -/
def redisLoad (w : World) (uid tid : String) : StateMap :=
  if w.rds.up then
    match alGet w.rds.kv (compose_key CHECKPOINT_NS uid tid) with
    | some st => st
    | none => []
  else []

/-- Model of `load_checkpoint`: consult the structured backend's
`load_checkpoint` when present (a raising call or a non-dict result falls
through), otherwise read the raw Redis key; every failure path returns the
empty mapping. -/
def load_checkpoint (w : World) (uid tid : String) : StateMap :=
  match w.mem with
  | some m =>
      if m.hasLoadCheckpoint then
        if m.loadRaises then redisLoad w uid tid
        else
          match alGet m.store (compose_key CHECKPOINT_NS uid tid) with
          | some st => st
          | none => redisLoad w uid tid
      else redisLoad w uid tid
  | none => redisLoad w uid tid

/-- One entry of the Serper response's `organic` list, with the fields the
source reads (`item.get("link")`, `item.get("snippet")`), either possibly
absent. -/
structure SItem where
  link : Option String
  snippet : Option String

/-- Parsed body of a successful Serper search response. -/
structure SResp where
  organic : List SItem

/-- One search result as the source builds it: the `url` value
(`item.get("link")`, so possibly None) and the truncated snippet text. -/
structure SrcEntry where
  url : Val
  snippet : String

/-- Model of `web_search`: missing API key and transport/HTTP/parse
failure (the `Except.error` case, carrying the exception text) produce the
single sentinel entry; success maps the first `maxResults` organic items
to `url`/snippet pairs, snippets truncated to 2000 characters. -/
def web_search (apiKey : Option String) (resp : Except String SResp) (_query : String)
    (maxResults : Nat) : List SrcEntry :=
  match apiKey with
  | none => [{ url := Val.vStr ("error"), snippet := "SERPER_API_KEY not configured" }]
  | some _ =>
      match resp with
      | .error e => [{ url := Val.vStr ("error"), snippet := "Search error: " ++ e }]
      | .ok r =>
          (r.organic.take maxResults).map (fun it =>
            { url := match it.link with | some u => Val.vStr u | none => Val.vNull
              snippet := pyTake 2000 (it.snippet.getD "") })

/-- JSON object stored in the state for one search result. -/
def encodeSrc (e : SrcEntry) : Val :=
  Val.vObj [("url", e.url), ("snippet", Val.vStr e.snippet)]

/-- Collaborator configuration threaded through a run: the search API key
and response, the optional generation client (a function of the prompt;
`none` when construction failed), and one optional injected exception per
stage, modelling the unexpected in-stage failures the `try`/`except`
blocks of `stream_run` guard against. -/
structure PipeEnv where
  apiKey : Option String
  serper : Except String SResp
  llm : Option (String → Except String String)
  searchExn : Option String
  draftExn : Option String
  reportExn : Option String

/-- The current question, read by `search_node` as `state["question"]`;
both entry points assign it (as a string) before any stage runs. -/
def qOf (st : StateMap) : String :=
  match alGet st "question" with
  | some (Val.vStr s) => s
  | _ => ""

/-- Model of `search_node`: store the search results (max 3, the call-site
default) under `sources`. -/
def search_node (env : PipeEnv) (st : StateMap) : StateMap :=
  alSet st "sources" (Val.vArr ((web_search env.apiKey env.serper (qOf st) 3).map encodeSrc))

/-- List behind `state.get("sources", [])`; the stages only ever store a
list there. -/
def sourcesList (st : StateMap) : List Val :=
  match alGet st "sources" with
  | some (Val.vArr xs) => xs
  | _ => []

/-- Value behind `state.get("sources", [])`, as the search `node_output`
payload embeds it. -/
def sourcesValOf (st : StateMap) : Val := (alGet st "sources").getD (Val.vArr [])

/-- Snippet text of one source entry (`s.get("snippet", "")`); entries are
the mappings `search_node` stored. -/
def snippetOf (item : Val) : String :=
  match item with
  | Val.vObj fs => match alGet fs "snippet" with | some v => pyStr v | none => ""
  | _ => ""

/-- Context block of `draft_node`: all snippets joined by blank lines. -/
def contextOf (st : StateMap) : String :=
  String.intercalate "\n\n" ((sourcesList st).map snippetOf)

/-- Prompt `draft_node` sends to the generation collaborator. -/
def promptOf (st : StateMap) : String :=
  "Based on these sources, draft a financial analysis report:\n\n" ++ contextOf st

/-- Draft text `draft_node` stores: the collaborator's text on success,
the fixed placeholder when the invocation raises, the fixed fallback when
no collaborator is configured. -/
def draftText (llm : Option (String → Except String String)) (prompt : String) : String :=
  match llm with
  | none => "LLM not available — sample draft generated by fallback."
  | some f =>
      match f prompt with
      | .ok t => t
      | .error _ => "LLM invocation failed — placeholder draft."

/-- Model of `draft_node`: store the draft text under `draft`. -/
def draft_node (env : PipeEnv) (st : StateMap) : StateMap :=
  alSet st "draft" (Val.vStr (draftText env.llm (promptOf st)))

/-- One citation line of the report: `f"- {s.get('url')}"` (an absent url
interpolates as `None`). -/
def citationLine (item : Val) : String :=
  "- " ++ (match item with
    | Val.vObj fs => match alGet fs "url" with | some v => pyStr v | none => "None"
    | v => pyStr v)

/-- Text behind `state.get('draft','')` as the report interpolates it. -/
def draftValOf (st : StateMap) : String :=
  match alGet st "draft" with
  | some v => pyStr v
  | none => ""

/-- Model of `report_node`: format the final report from the draft and the
newline-joined citation lines, and store it under `report`. -/
def report_node (st : StateMap) : StateMap :=
  alSet st "report"
    (Val.vStr ("## Report\n\n" ++ draftValOf st ++ "\n\n### Sources\n"
      ++ String.intercalate "\n" ((sourcesList st).map citationLine)))

/-- Model of `run_full`: hydrate from the checkpoint, set the question,
run the three stages in order saving a checkpoint after each, and return
the final state (with the final persistence world). -/
def run_full (q uid tid : String) (env : PipeEnv) (w : World) : StateMap × World :=
  let loaded := load_checkpoint w uid tid
  let st0 := alSet (updateAll [] loaded) "question" (Val.vStr q)
  let st1 := search_node env st0
  let w1 := (save_checkpoint w st1 uid tid).2
  let st2 := draft_node env st1
  let w2 := (save_checkpoint w1 st2 uid tid).2
  let st3 := report_node st2
  let w3 := (save_checkpoint w2 st3 uid tid).2
  (st3, w3)

/-- One streamed event before SSE framing: the `event_type` and `payload`
handed to `sse_event`. -/
structure EventRec where
  etype : String
  payload : Val

/-- The JSON object `sse_event` serializes. -/
def evObj (e : EventRec) : Val :=
  Val.vObj [("event", Val.vStr e.etype), ("payload", e.payload)]

/-- Model of `sse_event`: the yielded SSE frame
`"data: " + json.dumps(...) + "\n\n"`. -/
def sseString (e : EventRec) : String := "data: " ++ jsonDumps (evObj e) ++ "\n\n"

/-- The opening `started` event of a stream. -/
def startedEv (q uid tid : String) : EventRec :=
  ⟨"started", Val.vObj [("question", Val.vStr q), ("user_id", Val.vStr uid), ("thread_id", Val.vStr tid)]⟩

/-- A `status {node, message: "running"}` event. -/
def statusEv (node : String) : EventRec :=
  ⟨"status", Val.vObj [("node", Val.vStr node), ("message", Val.vStr ("running"))]⟩

/-- An `error {node, error}` event. -/
def errorEv (node msg : String) : EventRec :=
  ⟨"error", Val.vObj [("node", Val.vStr node), ("error", Val.vStr msg)]⟩

/-- Preview text of the draft `node_output`:
`(state.get("draft") or "")[:2000]`. -/
def draftPreviewOf (st : StateMap) : String :=
  pyTake 2000 (match alGet st "draft" with | some (Val.vStr d) => d | _ => "")

/-- Value behind `state.get("report")` (None when absent). -/
def reportValOf (st : StateMap) : Val := (alGet st "report").getD Val.vNull

/-- Model of `stream_run`: the ordered event records it yields, together
with the state and persistence world at the point it returns. A stage
whose injected exception fires yields the stage's `error` event and
returns at once (its assignment and checkpoint save do not happen);
otherwise the stage runs, the checkpoint is saved, and the stage's
`node_output` follows. -/
def stream_run (q uid tid : String) (env : PipeEnv) (w : World) :
    List EventRec × StateMap × World :=
  let loaded := load_checkpoint w uid tid
  let st0 := alSet (updateAll [] loaded) "question" (Val.vStr q)
  let evs0 := [startedEv q uid tid, statusEv ("search")]
  match env.searchExn with
  | some m => (evs0 ++ [errorEv ("search") m], st0, w)
  | none =>
      let st1 := search_node env st0
      let w1 := (save_checkpoint w st1 uid tid).2
      let evs1 := evs0 ++ [⟨"node_output", Val.vObj [("node", Val.vStr ("search")), ("sources", sourcesValOf st1)]⟩,
                           statusEv ("drafts")]
      match env.draftExn with
      | some m => (evs1 ++ [errorEv ("drafts") m], st1, w1)
      | none =>
          let st2 := draft_node env st1
          let w2 := (save_checkpoint w1 st2 uid tid).2
          let evs2 := evs1 ++ [⟨"node_output", Val.vObj [("node", Val.vStr ("drafts")), ("draft_preview", Val.vStr (draftPreviewOf st2))]⟩,
                               statusEv ("reports")]
          match env.reportExn with
          | some m => (evs2 ++ [errorEv ("reports") m], st2, w2)
          | none =>
              let st3 := report_node st2
              let w3 := (save_checkpoint w2 st3 uid tid).2
              (evs2 ++ [⟨"node_output", Val.vObj [("node", Val.vStr ("reports")), ("report", reportValOf st3)]⟩,
                        ⟨"finished", Val.vObj [("report", reportValOf st3)]⟩], st3, w3)

/-- Decoded job record, fields as `job.get(...)` returns them. -/
structure Job where
  user_id : Option String
  thread_id : Option String
  question : Option String
  channel : Option String

/-- The terminal sentinel object the worker publishes. -/
def endObj : Val := Val.vObj [("event", Val.vStr ("end_of_stream"))]

/-- The `info {message: "worker_started"}` object published on job start. -/
def infoObj : Val :=
  Val.vObj [("event", Val.vStr ("info")), ("payload", Val.vObj [("message", Val.vStr ("worker_started"))])]

/-- The `error {message}` object published when the executor raises. -/
def errObjW (m : String) : Val :=
  Val.vObj [("event", Val.vStr ("error")), ("payload", Val.vObj [("message", Val.vStr m)])]

/-- Model of the worker main loop's handling of one decoded job: the
ordered (channel, value) publications it performs. A job without a truthy
output channel is dropped with no publish. Otherwise: the `info` event;
the normalized publications for every chunk the executor yielded
(`yields`, the SSE strings of `stream_run`, a prefix thereof when the
executor raises partway); one `error` event when the executor raised
(`exn`); and the terminal `end_of_stream`, always. Publish failures are
caught and logged by `_publish_object` itself and per-event normalization
is total, so no other path alters this sequence. -/
def handleJob (job : Job) (yields : List String) (exn : Option String) : List (String × Val) :=
  match job.channel with
  | none => []
  | some ch =>
      if ch = "" then []
      else
        (ch, infoObj) ::
          ((yields.flatMap (fun s => processEvent (.text s))).map (fun v => (ch, v))
            ++ (match exn with | some m => [(ch, errObjW m)] | none => [])
            ++ [(ch, endObj)])

/-- Number of stages a streaming run actually enters (a stage is entered
when its `status` event is yielded): `search` always, `drafts` unless
search raised, `reports` unless search or drafts raised. -/
def stagesEntered (env : PipeEnv) : Nat :=
  if env.searchExn.isSome then 1 else if env.draftExn.isSome then 2 else 3

/-- Node label of the i-th stage, as the emitted events spell it. -/
def stageName : Nat → String
  | 0 => "search"
  | 1 => "drafts"
  | _ => "reports"

/-- Plain text: no quote, no backslash, no control characters. The event
type labels of `stream_run` are all plain, which pins down how their SSE
frames re-parse. -/
def StrPlain (s : String) : Prop :=
  ∀ c ∈ s.data, c ≠ '"' ∧ c ≠ '\\' ∧ 32 ≤ c.toNat
/-- Structured backend of the C1 counterexample: reachable, offering only
the generic `save` method and no `load_checkpoint`. -/
def c1Mem : Mem :=
  { hasSaveCheckpoint := false, hasSave := true, hasWrite := false,
    hasLoadCheckpoint := false, saveRaises := false, saveSingleRaises := false,
    loadRaises := false, store := [], blob := [] }

/-- Persistence world of the C1 counterexample: the save-only structured
backend plus a reachable, empty raw Redis store. -/
def c1World : World := { mem := some c1Mem, rds := { up := true, kv := [] } }

/-- State saved in the C1 counterexample. -/
def c1State : StateMap := [("a", Val.vStr ("b"))]

/-- Collaborator configuration of the C4 concrete scenario: search key
configured, one organic result for `https://x`, generation unavailable. -/
def c4Env : PipeEnv :=
  { apiKey := some ("k"),
    serper := Except.ok ⟨[{ link := some ("https://x"), snippet := some ("Widgets up 5%") }]⟩,
    llm := none, searchExn := none, draftExn := none, reportExn := none }

/-- Fresh persistence world: no structured backend, reachable empty Redis. -/
def freshWorld : World := { mem := none, rds := { up := true, kv := [] } }

/-- Draft text a run computes after its search stage: the generation
collaborator's answer to the prompt built from the freshly stored sources
(this is the full draft; only the event preview truncates it). -/
def fullDraftOf (q uid tid : String) (env : PipeEnv) (w : World) : String :=
  draftText env.llm (promptOf (search_node env
    (alSet (updateAll [] (load_checkpoint w uid tid)) ("question") (Val.vStr q))))

section DictLemmas

variable {α : Type}

theorem alGet_nil (k : String) : alGet ([] : List (String × α)) k = none := rfl

theorem alGet_cons (p : String × α) (m : List (String × α)) (k : String) :
    alGet (p :: m) k = if p.1 == k then some p.2 else alGet m k := by
  cases h : (p.1 == k) <;> simp [alGet, List.find?, h]

theorem alGet_append (m1 m2 : List (String × α)) (k : String) :
    alGet (m1 ++ m2) k =
      (match alGet m1 k with | some v => some v | none => alGet m2 k) := by
  induction m1 with
  | nil => simp [alGet_nil]
  | cons p rest ih =>
      rw [List.cons_append, alGet_cons, alGet_cons]
      cases h : (p.1 == k) <;> simp [h, ih]

theorem alGet_none_of_all_ne (m : List (String × α)) (k : String)
    (h : m.any (fun p => p.1 == k) = false) : alGet m k = none := by
  induction m with
  | nil => rfl
  | cons p rest ih =>
      simp only [List.any_cons, Bool.or_eq_false_iff] at h
      rw [alGet_cons, h.1]
      simpa using ih h.2

theorem alGet_map_set (m : List (String × α)) (k : String) (v : α) :
    alGet (m.map (fun p => if p.1 == k then (k, v) else p)) k
      = if m.any (fun p => p.1 == k) then some v else none := by
  induction m with
  | nil => simp [alGet_nil]
  | cons p rest ih =>
      cases h : (p.1 == k)
      · simp only [List.map_cons, h, Bool.false_eq_true, if_false, List.any_cons, Bool.false_or]
        rw [alGet_cons]
        simp only [h, Bool.false_eq_true, if_false]
        exact ih
      · simp only [List.map_cons, h, if_true, List.any_cons, Bool.true_or]
        rw [alGet_cons]
        simp

theorem alGet_alSet_self (m : List (String × α)) (k : String) (v : α) :
    alGet (alSet m k v) k = some v := by
  unfold alSet
  cases hany : (m.any fun p => p.1 == k)
  · simp only [hany, Bool.false_eq_true, if_false]
    rw [alGet_append, alGet_none_of_all_ne m k hany]
    rw [alGet_cons]
    simp only [beq_self_eq_true, if_true]
  · simp only [hany, if_true]
    rw [alGet_map_set, hany]
    rfl

theorem alGet_map_set_ne (m : List (String × α)) (k k' : String) (v : α) (hne : k' ≠ k) :
    alGet (m.map (fun p => if p.1 == k then (k, v) else p)) k' = alGet m k' := by
  induction m with
  | nil => simp
  | cons p rest ih =>
      cases h : (p.1 == k)
      · simp only [List.map_cons, h, Bool.false_eq_true, if_false]
        rw [alGet_cons, alGet_cons]
        cases h2 : (p.1 == k')
        · simp only [h2, Bool.false_eq_true, if_false]
          exact ih
        · simp only [h2, if_true]
      · have hp : p.1 = k := by simpa using h
        simp only [List.map_cons, h, if_true]
        rw [alGet_cons, alGet_cons]
        have h1 : (k == k') = false := by simp [Ne.symm hne]
        have h2 : (p.1 == k') = false := by simp [hp, Ne.symm hne]
        simp only [h1, h2, if_false]
        exact ih

theorem alGet_alSet_ne (m : List (String × α)) (k k' : String) (v : α) (hne : k' ≠ k) :
    alGet (alSet m k v) k' = alGet m k' := by
  unfold alSet
  cases hany : (m.any fun p => p.1 == k)
  · simp only [hany, Bool.false_eq_true, if_false]
    rw [alGet_append]
    cases halm : alGet m k'
    · rw [alGet_cons]
      simp [Ne.symm hne, alGet_nil]
    · simp
  · simp only [hany, if_true]
    exact alGet_map_set_ne m k k' v hne

theorem alGet_eq_none_of_not_key (m : List (String × α)) (k : String)
    (h : k ∉ m.map Prod.fst) : alGet m k = none := by
  induction m with
  | nil => rfl
  | cons p rest ih =>
      simp only [List.map_cons, List.mem_cons, not_or] at h
      rw [alGet_cons, if_neg (by simp [Ne.symm h.1])]
      exact ih h.2

theorem updateAll_cons (m : StateMap) (kv : String × Val) (l : StateMap) :
    updateAll m (kv :: l) = updateAll (alSet m kv.1 kv.2) l := rfl

theorem alGet_updateAll (l : StateMap) (m : StateMap) (k : String)
    (hnd : (l.map Prod.fst).Nodup) :
    alGet (updateAll m l) k =
      (match alGet l k with | some v => some v | none => alGet m k) := by
  induction l generalizing m with
  | nil => simp [updateAll, alGet_nil]
  | cons kv rest ih =>
      simp only [List.map_cons, List.nodup_cons] at hnd
      rw [updateAll_cons, ih _ hnd.2, alGet_cons]
      cases h : (kv.1 == k)
      · simp only [h, Bool.false_eq_true, if_false]
        cases hrest : alGet rest k
        · simp only []
          exact alGet_alSet_ne m kv.1 k kv.2 (fun he => by simp [he] at h)
        · simp
      · have hk : kv.1 = k := by simpa using h
        subst hk
        rw [alGet_eq_none_of_not_key rest kv.1 hnd.1]
        simp [alGet_alSet_self]

end DictLemmas
/-- C6: given the raw text `"data: {"a":1}\n\ndata: {"b":2}\n\n"` the
normalizer publishes exactly the two parsed objects, in order; given the
unparseable text `"hello world"` it publishes exactly the single event
`{"raw": "hello world"}`. -/
theorem c6_normalizer_concrete_blocks :
    processEvent (.text ("data: \x7b\"a\":1\x7d\n\ndata: \x7b\"b\":2\x7d\n\n")) =
      [Val.vObj [("a", Val.vNum 1)], Val.vObj [("b", Val.vNum 2)]]
    ∧ processEvent (.text ("hello world")) =
      [Val.vObj [("raw", Val.vStr ("hello world"))]] :=
  ⟨rfl, rfl⟩

/-- C10: when the stripped text of a string event parses as JSON and the
parsed value is not an object (a number, list, or string literal), the
normalizer publishes the parsed value itself — not an `{event, payload}`
record and not a `{raw: ...}` wrapper. -/
theorem c10_nonobject_parse_passthrough (s : String) (v : Val)
    (hp : jsonParse (String.mk (stripL s.data)) = some v)
    (_hno : ∀ l, v ≠ Val.vObj l) :
    processEvent (.text s) = [v] := by
  have hne : ¬ (stripL s.data = []) := by
    intro h0
    rw [h0] at hp
    exact Option.noConfusion hp
  show processText s = [v]
  unfold processText
  simp only [hne, if_false, hp]

/-- C10 witness: the text `"42"` is published as the bare number 42. -/
theorem c10_witness : processEvent (.text ("42")) = [Val.vNum 42] :=
  c10_nonobject_parse_passthrough ("42") (Val.vNum 42) (by rfl)
    (fun _ h => Val.noConfusion h)

/-- C7 counterexample: with a max result count of 0 and the API key
missing, `web_search` returns the one-element sentinel list, so its
length is not bounded by the max result count; the claim's universally
quantified bound fails at `max_results = 0`. -/
theorem c7_counterexample_maxzero :
    ¬ ((web_search none (Except.ok ⟨[]⟩) ("any query") 0).length ≤ 0) := by
  decide

/-- C7 amended: on a successful response `web_search` returns at most
`max_results` entries, each with a snippet of at most 2000 characters, in
response order; on a missing API key, or on a transport failure, it
returns exactly the single sentinel entry with url `"error"` and a
descriptive snippet, regardless of the max result count (and the sentinel
snippet is not length-bounded). It never raises: the model is total, as
the source catches every exception of the request path. -/
theorem c7_search_contract :
    ∀ (key : String) (r : SResp) (q : String) (n : Nat),
      (web_search (some key) (Except.ok r) q n).length ≤ n
      ∧ (∀ e ∈ web_search (some key) (Except.ok r) q n, e.snippet.length ≤ 2000)
      ∧ (web_search (some key) (Except.ok r) q n).map SrcEntry.url
          = (r.organic.take n).map
              (fun it => match it.link with | some u => Val.vStr u | none => Val.vNull)
      ∧ (∀ resp, web_search none resp q n
          = [{ url := Val.vStr ("error"), snippet := "SERPER_API_KEY not configured" }])
      ∧ (∀ msg, web_search (some key) (Except.error msg) q n
          = [{ url := Val.vStr ("error"), snippet := "Search error: " ++ msg }]) := by
  intro key r q n
  refine ⟨?_, ?_, ?_, fun _ => rfl, fun _ => rfl⟩
  · simp only [web_search, List.length_map, List.length_take]
    exact Nat.min_le_left _ _
  · intro e he
    simp only [web_search, List.mem_map] at he
    obtain ⟨it, _, rfl⟩ := he
    show (pyTake 2000 (it.snippet.getD "")).length ≤ 2000
    have hl : (pyTake 2000 (it.snippet.getD "")).length
        = ((it.snippet.getD "").data.take 2000).length := rfl
    rw [hl, List.length_take]
    exact Nat.min_le_left _ _
  · simp only [web_search]
    rw [List.map_map]
    rfl

/-- C7 witness: a concrete successful response satisfies the bounds, and
the missing-key sentinel is as stated. -/
theorem c7_search_contract_witness :
    ({ url := Val.vStr ("https://x"), snippet := ("snip") } : SrcEntry).snippet.length ≤ 2000
    ∧ web_search none (Except.ok ⟨[]⟩) ("q") 3
        = [{ url := Val.vStr ("error"), snippet := "SERPER_API_KEY not configured" }] :=
  ⟨(c7_search_contract ("k") ⟨[{ link := some ("https://x"), snippet := some ("snip") }]⟩
      ("q") 3).2.1
      { url := Val.vStr ("https://x"), snippet := ("snip") } (List.Mem.head _),
   (c7_search_contract ("k") ⟨[]⟩ ("q") 3).2.2.2.1 (Except.ok ⟨[]⟩)⟩

/-- C1 counterexample: with a reachable structured backend that offers the
generic `save` method but no `load_checkpoint`, and a reachable empty
Redis store, `save_checkpoint` succeeds (via the backend) but the
following `load_checkpoint` consults Redis and returns the empty mapping,
so save-then-load does not return what was saved even though every
backend is reachable. -/
theorem c1_counterexample_mismatched_backend :
    (save_checkpoint c1World c1State ("u") ("t")).1 = true
    ∧ load_checkpoint (save_checkpoint c1World c1State ("u") ("t")).2 ("u") ("t") ≠ c1State := by
  refine ⟨rfl, ?_⟩
  intro h
  exact List.noConfusion h

/-- C1 amended: save-then-load returns the saved mapping whenever the
backend that performs the save is the backend the load consults — either
no structured backend is configured and the raw Redis store is reachable,
or the structured backend offers the paired
`save_checkpoint`/`load_checkpoint` operations and neither raises. (As
universally stated the claim fails: a reachable structured backend whose
only probed method is a generic `save` absorbs the write that the load
path never reads back — see the counterexample.) -/
theorem c1_roundtrip_amended (uid tid : String) (st : StateMap) (w : World)
    (h : (w.mem = none ∧ w.rds.up = true)
        ∨ (∃ m, w.mem = some m ∧ m.hasSaveCheckpoint = true ∧ m.hasLoadCheckpoint = true
            ∧ m.saveRaises = false ∧ m.loadRaises = false)) :
    (save_checkpoint w st uid tid).1 = true
    ∧ load_checkpoint (save_checkpoint w st uid tid).2 uid tid = st := by
  rcases w with ⟨mem, ⟨up, kv⟩⟩
  rcases h with ⟨hm, hup⟩ | ⟨m, hm, h1, h2, h3, h4⟩
  · simp only [] at hm hup
    subst hm
    subst hup
    unfold save_checkpoint redisSave load_checkpoint redisLoad
    simp [alGet_alSet_self]
  · simp only [] at hm
    subst hm
    unfold save_checkpoint load_checkpoint redisLoad
    simp only [h1, h2, h3, h4, if_true, Bool.false_eq_true, if_false]
    simp [alGet_alSet_self, h2, h4]

/-- C1 amended witness: the raw-Redis round trip at a concrete key
and state. -/
theorem c1_roundtrip_witness :
    (save_checkpoint freshWorld [("x", Val.vNum 5)] ("u") ("t")).1 = true
    ∧ load_checkpoint (save_checkpoint freshWorld [("x", Val.vNum 5)] ("u") ("t")).2 ("u") ("t")
      = [("x", Val.vNum 5)] :=
  c1_roundtrip_amended ("u") ("t") [("x", Val.vNum 5)] freshWorld (Or.inl ⟨rfl, rfl⟩)

/-- C5: a load on a key no save ever stored anything under returns the
empty mapping (whatever the backend flags), and when every backend raises
— the structured backend's methods all raise and Redis is unreachable —
`save_checkpoint` returns false and `load_checkpoint` returns the empty
mapping. Neither propagates an exception: both models are total because
every backend call in the source sits under a broad `except`. -/
theorem c5_load_and_total_failure :
    ∀ (uid tid : String) (st : StateMap) (w : World),
      ((∀ m, w.mem = some m → alGet m.store (compose_key CHECKPOINT_NS uid tid) = none) →
        alGet w.rds.kv (compose_key CHECKPOINT_NS uid tid) = none →
        load_checkpoint w uid tid = [])
      ∧ ((∀ m, w.mem = some m → m.saveRaises = true ∧ m.saveSingleRaises = true
            ∧ m.loadRaises = true) →
          w.rds.up = false →
          (save_checkpoint w st uid tid).1 = false ∧ load_checkpoint w uid tid = []) := by
  intro uid tid st w
  rcases w with ⟨mem, ⟨up, kv⟩⟩
  constructor
  · intro hm hr
    cases mem with
    | none =>
        unfold load_checkpoint redisLoad
        cases up <;> simp [hr]
    | some m =>
        have hs := hm m rfl
        unfold load_checkpoint redisLoad
        cases hlc : m.hasLoadCheckpoint <;> cases hlr : m.loadRaises <;>
          cases up <;> simp [hs, hr]
  · intro hm hup
    simp only [] at hup
    subst hup
    cases mem with
    | none =>
        unfold save_checkpoint load_checkpoint redisSave redisLoad
        simp
    | some m =>
        obtain ⟨hs1, hs2, hs3⟩ := hm m rfl
        unfold save_checkpoint load_checkpoint redisSave redisLoad
        cases hsc : m.hasSaveCheckpoint <;> cases hsv : m.hasSave <;>
          cases hw : m.hasWrite <;> cases hlc : m.hasLoadCheckpoint <;>
            simp [hs1, hs2, hs3]

/-- C5 witness: a concrete never-saved key loads empty, and a concrete
all-raising world fails the save and loads empty. -/
theorem c5_witness :
    (load_checkpoint freshWorld ("u") ("t") = [])
    ∧ ((save_checkpoint
          { mem := some { hasSaveCheckpoint := true, hasSave := true, hasWrite := true,
                          hasLoadCheckpoint := true, saveRaises := true, saveSingleRaises := true,
                          loadRaises := true, store := [], blob := [] },
            rds := { up := false, kv := [] } } [("x", Val.vNum 1)] ("u") ("t")).1 = false
        ∧ load_checkpoint
          { mem := some { hasSaveCheckpoint := true, hasSave := true, hasWrite := true,
                          hasLoadCheckpoint := true, saveRaises := true, saveSingleRaises := true,
                          loadRaises := true, store := [], blob := [] },
            rds := { up := false, kv := [] } } ("u") ("t") = []) :=
  ⟨(c5_load_and_total_failure ("u") ("t") [] freshWorld).1 (fun m hm => Option.noConfusion hm) rfl,
   (c5_load_and_total_failure ("u") ("t") [("x", Val.vNum 1)] _).2
     (fun m hm => by cases hm; exact ⟨rfl, rfl, rfl⟩) rfl⟩
theorem citationLine_encodeSrc (e : SrcEntry) :
    citationLine (encodeSrc e) = "- " ++ pyStr e.url := rfl

/-- C4: for every state whose sources list holds the entries the search
stage stores, the report stage produces exactly one citation line per
entry, each `- {url}`, in source order; and in the concrete scenario (one
source `https://x`, generation unavailable) the final report is exactly
the fixed fallback draft framed by the report template. -/
theorem c4_report_citations :
    (∀ (st : StateMap) (srcs : List SrcEntry),
        alGet st "sources" = some (Val.vArr (srcs.map encodeSrc)) →
        (srcs.map (fun e => "- " ++ pyStr e.url)).length = srcs.length
        ∧ alGet (report_node st) "report"
            = some (Val.vStr ("## Report\n\n" ++ draftValOf st ++ "\n\n### Sources\n"
                ++ String.intercalate "\n" (srcs.map (fun e => "- " ++ pyStr e.url)))))
    ∧ alGet (run_full ("Outlook for widget sales") ("u") ("t") c4Env freshWorld).1 ("report")
        = some (Val.vStr
            ("## Report\n\nLLM not available — sample draft generated by fallback.\n\n### Sources\n- https://x")) := by
  constructor
  · intro st srcs hs
    have hsl : sourcesList st = srcs.map encodeSrc := by
      unfold sourcesList
      rw [hs]
    constructor
    · exact List.length_map srcs _
    · unfold report_node
      rw [alGet_alSet_self, hsl, List.map_map]
      rfl
  · rfl

/-- C4 witness: the general citation formula applied at a concrete
one-source state. -/
theorem c4_report_citations_witness :
    alGet (report_node [("sources", Val.vArr [encodeSrc { url := Val.vStr ("https://x"), snippet := ("s") }])])
        "report"
      = some (Val.vStr ("## Report\n\n\n\n### Sources\n- https://x")) :=
  ((c4_report_citations.1
      [("sources", Val.vArr [encodeSrc { url := Val.vStr ("https://x"), snippet := ("s") }])]
      [{ url := Val.vStr ("https://x"), snippet := ("s") }] rfl).2)

/-- C8: in both the blocking and the streaming run, a key hydrated from
the checkpoint keeps its loaded value in the final state unless one of
the stages writes that key (only `question`, `sources`, `draft`,
`report` are written), and `question` always ends up equal to the current
request's question, whatever the loaded checkpoint contained. -/
theorem c8_state_key_invariants (q uid tid : String) (env : PipeEnv) (w : World)
    (hnd : ((load_checkpoint w uid tid).map Prod.fst).Nodup) :
    (∀ k, k ≠ "question" → k ≠ "sources" → k ≠ "draft" → k ≠ "report" →
        alGet (run_full q uid tid env w).1 k = alGet (load_checkpoint w uid tid) k
        ∧ alGet (stream_run q uid tid env w).2.1 k = alGet (load_checkpoint w uid tid) k)
    ∧ alGet (run_full q uid tid env w).1 ("question") = some (Val.vStr q)
    ∧ alGet (stream_run q uid tid env w).2.1 ("question") = some (Val.vStr q) := by
  have h0 : ∀ k, k ≠ "question" →
      alGet (alSet (updateAll [] (load_checkpoint w uid tid)) ("question") (Val.vStr q)) k
        = alGet (load_checkpoint w uid tid) k := by
    intro k hk
    rw [alGet_alSet_ne _ _ _ _ hk, alGet_updateAll _ [] k hnd]
    cases hc : alGet (load_checkpoint w uid tid) k <;> simp [alGet_nil]
  have hq0 : alGet (alSet (updateAll [] (load_checkpoint w uid tid)) ("question") (Val.vStr q))
      ("question") = some (Val.vStr q) := alGet_alSet_self _ _ _
  have hS : ∀ (e : PipeEnv) (st : StateMap) (k : String), k ≠ "sources" →
      alGet (search_node e st) k = alGet st k :=
    fun e st k hk => alGet_alSet_ne st ("sources") k _ hk
  have hD : ∀ (e : PipeEnv) (st : StateMap) (k : String), k ≠ "draft" →
      alGet (draft_node e st) k = alGet st k :=
    fun e st k hk => alGet_alSet_ne st ("draft") k _ hk
  have hR : ∀ (st : StateMap) (k : String), k ≠ "report" →
      alGet (report_node st) k = alGet st k :=
    fun st k hk => alGet_alSet_ne st ("report") k _ hk
  rcases env with ⟨ak, sp, lm, se, de, re⟩
  refine ⟨?_, ?_, ?_⟩
  · intro k hk1 hk2 hk3 hk4
    constructor
    · show alGet (report_node (draft_node _ (search_node _ _))) k = _
      rw [hR _ _ hk4, hD _ _ _ hk3, hS _ _ _ hk2, h0 k hk1]
    · cases se with
      | some m => exact h0 k hk1
      | none =>
          cases de with
          | some m =>
              show alGet (search_node _ _) k = _
              rw [hS _ _ _ hk2, h0 k hk1]
          | none =>
              cases re with
              | some m =>
                  show alGet (draft_node _ (search_node _ _)) k = _
                  rw [hD _ _ _ hk3, hS _ _ _ hk2, h0 k hk1]
              | none =>
                  show alGet (report_node (draft_node _ (search_node _ _))) k = _
                  rw [hR _ _ hk4, hD _ _ _ hk3, hS _ _ _ hk2, h0 k hk1]
  · show alGet (report_node (draft_node _ (search_node _ _))) ("question") = _
    rw [hR _ _ (by decide), hD _ _ _ (by decide), hS _ _ _ (by decide)]
    exact hq0
  · cases se with
    | some m => exact hq0
    | none =>
        cases de with
        | some m =>
            show alGet (search_node _ _) ("question") = _
            rw [hS _ _ _ (by decide)]
            exact hq0
        | none =>
            cases re with
            | some m =>
                show alGet (draft_node _ (search_node _ _)) ("question") = _
                rw [hD _ _ _ (by decide), hS _ _ _ (by decide)]
                exact hq0
            | none =>
                show alGet (report_node (draft_node _ (search_node _ _))) ("question") = _
                rw [hR _ _ (by decide), hD _ _ _ (by decide), hS _ _ _ (by decide)]
                exact hq0

/-- C8 witness: a concrete run over a checkpoint holding an extra key
keeps that key's loaded value, and `question` is overwritten. -/
theorem c8_state_key_invariants_witness :
    alGet (run_full ("new q") ("u") ("t") c4Env
        { mem := none,
          rds := { up := true,
                   kv := [(compose_key CHECKPOINT_NS ("u") ("t"),
                           [("extra", Val.vNum 7), ("question", Val.vStr ("old q"))])] } }).1
        ("extra")
      = some (Val.vNum 7)
    ∧ alGet (run_full ("new q") ("u") ("t") c4Env
        { mem := none,
          rds := { up := true,
                   kv := [(compose_key CHECKPOINT_NS ("u") ("t"),
                           [("extra", Val.vNum 7), ("question", Val.vStr ("old q"))])] } }).1
        ("question")
      = some (Val.vStr ("new q")) := by
  have h := c8_state_key_invariants ("new q") ("u") ("t") c4Env
    { mem := none,
      rds := { up := true,
               kv := [(compose_key CHECKPOINT_NS ("u") ("t"),
                       [("extra", Val.vNum 7), ("question", Val.vStr ("old q"))])] } }
    (by decide)
  refine ⟨?_, h.2.1⟩
  have h1 := (h.1 ("extra") (by decide) (by decide) (by decide) (by decide)).1
  rw [h1]
  rfl
/-- C3: every streaming run yields exactly one `started` event, first;
one `status` event per stage actually entered, yielded at the positions
just before that stage runs; and ends either with the `finished` event
carrying the report when all three stages completed, or with the `error`
event of the first stage that raised, with nothing after it (the length
pins rule out any later stage events). -/
theorem c3_stream_event_protocol (q uid tid : String) (env : PipeEnv) (w : World) :
    ((stream_run q uid tid env w).1.head? = some (startedEv q uid tid))
    ∧ ((stream_run q uid tid env w).1.countP (fun e => e.etype == "started") = 1)
    ∧ ((stream_run q uid tid env w).1.countP (fun e => e.etype == "status") = stagesEntered env)
    ∧ (∀ i, i < stagesEntered env →
        (stream_run q uid tid env w).1.get? (2 * i + 1) = some (statusEv (stageName i)))
    ∧ (env.searchExn = none → env.draftExn = none → env.reportExn = none →
        (stream_run q uid tid env w).1.getLast?
          = some ⟨"finished", Val.vObj [("report", reportValOf ((stream_run q uid tid env w).2.1))]⟩
        ∧ (stream_run q uid tid env w).1.length = 8)
    ∧ (∀ m, env.searchExn = some m →
        (stream_run q uid tid env w).1.getLast? = some (errorEv ("search") m)
        ∧ (stream_run q uid tid env w).1.length = 3)
    ∧ (∀ m, env.searchExn = none → env.draftExn = some m →
        (stream_run q uid tid env w).1.getLast? = some (errorEv ("drafts") m)
        ∧ (stream_run q uid tid env w).1.length = 5)
    ∧ (∀ m, env.searchExn = none → env.draftExn = none → env.reportExn = some m →
        (stream_run q uid tid env w).1.getLast? = some (errorEv ("reports") m)
        ∧ (stream_run q uid tid env w).1.length = 7) := by
  rcases env with ⟨ak, sp, lm, se, de, re⟩
  cases se with
  | some m =>
      refine ⟨rfl, rfl, rfl, ?_, ?_, ?_, ?_, ?_⟩
      · intro i hi
        have h0 : i = 0 := by
          simp only [stagesEntered, Option.isSome_some, if_true] at hi
          omega
        subst h0
        rfl
      · intro h1
        exact absurd h1 (by simp)
      · intro m2 hm2
        injection hm2 with h
        subst h
        exact ⟨rfl, rfl⟩
      · intro m2 h1
        exact absurd h1 (by simp)
      · intro m2 h1
        exact absurd h1 (by simp)
  | none =>
      cases de with
      | some m =>
          refine ⟨rfl, rfl, rfl, ?_, ?_, ?_, ?_, ?_⟩
          · intro i hi
            have h2 : i = 0 ∨ i = 1 := by
              simp only [stagesEntered, Option.isSome_none, Option.isSome_some, if_true,
                Bool.false_eq_true, if_false] at hi
              omega
            rcases h2 with rfl | rfl <;> rfl
          · intro _ h2
            exact absurd h2 (by simp)
          · intro m2 hm2
            exact absurd hm2 (by simp)
          · intro m2 _ hm2
            injection hm2 with h
            subst h
            exact ⟨rfl, rfl⟩
          · intro m2 _ h2
            exact absurd h2 (by simp)
      | none =>
          cases re with
          | some m =>
              refine ⟨rfl, rfl, rfl, ?_, ?_, ?_, ?_, ?_⟩
              · intro i hi
                have h3 : i = 0 ∨ i = 1 ∨ i = 2 := by
                  simp only [stagesEntered, Option.isSome_none, Bool.false_eq_true,
                    if_false] at hi
                  omega
                rcases h3 with rfl | rfl | rfl <;> rfl
              · intro _ _ h3
                exact absurd h3 (by simp)
              · intro m2 hm2
                exact absurd hm2 (by simp)
              · intro m2 _ hm2
                exact absurd hm2 (by simp)
              · intro m2 _ _ hm2
                injection hm2 with h
                subst h
                exact ⟨rfl, rfl⟩
          | none =>
              refine ⟨rfl, rfl, rfl, ?_, ?_, ?_, ?_, ?_⟩
              · intro i hi
                have h3 : i = 0 ∨ i = 1 ∨ i = 2 := by
                  simp only [stagesEntered, Option.isSome_none, Bool.false_eq_true,
                    if_false] at hi
                  omega
                rcases h3 with rfl | rfl | rfl <;> rfl
              · intro _ _ _
                exact ⟨rfl, rfl⟩
              · intro m2 hm2
                exact absurd hm2 (by simp)
              · intro m2 _ hm2
                exact absurd hm2 (by simp)
              · intro m2 _ _ hm2
                exact absurd hm2 (by simp)

/-- C3 witness: the protocol at a concrete completing run and at a
concrete run whose search stage raises. -/
theorem c3_stream_event_protocol_witness :
    ((stream_run ("q1") ("u") ("t") c4Env freshWorld).1.getLast?
      = some ⟨"finished",
          Val.vObj [("report", reportValOf ((stream_run ("q1") ("u") ("t") c4Env freshWorld).2.1))]⟩
      ∧ (stream_run ("q1") ("u") ("t") c4Env freshWorld).1.length = 8)
    ∧ ((stream_run ("q1") ("u") ("t")
          { apiKey := none, serper := Except.ok ⟨[]⟩, llm := none,
            searchExn := some ("boom"), draftExn := none, reportExn := none } freshWorld).1.getLast?
        = some (errorEv ("search") ("boom"))
        ∧ (stream_run ("q1") ("u") ("t")
            { apiKey := none, serper := Except.ok ⟨[]⟩, llm := none,
              searchExn := some ("boom"), draftExn := none, reportExn := none } freshWorld).1.length = 3) :=
  ⟨(c3_stream_event_protocol ("q1") ("u") ("t") c4Env freshWorld).2.2.2.2.1 rfl rfl rfl,
   (c3_stream_event_protocol ("q1") ("u") ("t")
      { apiKey := none, serper := Except.ok ⟨[]⟩, llm := none,
        searchExn := some ("boom"), draftExn := none, reportExn := none }
      freshWorld).2.2.2.2.2.1 ("boom") rfl⟩

theorem draft_node_get (env : PipeEnv) (st : StateMap) :
    alGet (draft_node env st) ("draft")
      = some (Val.vStr (draftText env.llm (promptOf st))) := by
  unfold draft_node
  exact alGet_alSet_self _ _ _

theorem draftPreviewOf_draft_node (env : PipeEnv) (st : StateMap) :
    draftPreviewOf (draft_node env st) = pyTake 2000 (draftText env.llm (promptOf st)) := by
  unfold draftPreviewOf
  rw [draft_node_get]

theorem redisWorld_save_load (uid tid : String) (st : StateMap) (w : World)
    (hm : w.mem = none) (hup : w.rds.up = true) :
    (save_checkpoint w st uid tid).2.mem = none
    ∧ (save_checkpoint w st uid tid).2.rds.up = true
    ∧ load_checkpoint (save_checkpoint w st uid tid).2 uid tid = st := by
  rcases w with ⟨mem, ⟨up, kv⟩⟩
  simp only [] at hm hup
  subst hm
  subst hup
  unfold save_checkpoint redisSave load_checkpoint redisLoad
  simp [alGet_alSet_self]

/-- C9: whenever the draft stage of a streaming run completes, the
`node_output` event of the draft stage carries `draft_preview` equal to
the first 2000 characters of the draft (hence at most 2000 characters),
while the final state and (over a reachable raw-Redis world) the saved
checkpoint keep the full draft text. -/
theorem c9_draft_preview_truncation (q uid tid : String) (env : PipeEnv) (w : World)
    (hs : env.searchExn = none) (hd : env.draftExn = none)
    (hm : w.mem = none) (hup : w.rds.up = true) :
    (stream_run q uid tid env w).1.get? 4
      = some ⟨"node_output", Val.vObj [("node", Val.vStr ("drafts")),
          ("draft_preview", Val.vStr (pyTake 2000 (fullDraftOf q uid tid env w)))]⟩
    ∧ (pyTake 2000 (fullDraftOf q uid tid env w)).length ≤ 2000
    ∧ alGet (stream_run q uid tid env w).2.1 ("draft")
        = some (Val.vStr (fullDraftOf q uid tid env w))
    ∧ alGet (load_checkpoint (stream_run q uid tid env w).2.2 uid tid) ("draft")
        = some (Val.vStr (fullDraftOf q uid tid env w)) := by
  rcases env with ⟨ak, sp, lm, se, de, re⟩
  simp only [] at hs hd
  subst hs
  subst hd
  have hlen : (pyTake 2000 (fullDraftOf q uid tid ⟨ak, sp, lm, none, none, re⟩ w)).length ≤ 2000 := by
    have : (pyTake 2000 (fullDraftOf q uid tid ⟨ak, sp, lm, none, none, re⟩ w)).length
        = ((fullDraftOf q uid tid ⟨ak, sp, lm, none, none, re⟩ w).data.take 2000).length := rfl
    rw [this, List.length_take]
    exact Nat.min_le_left _ _
  have hw1 := redisWorld_save_load uid tid
    (search_node ⟨ak, sp, lm, none, none, re⟩
      (alSet (updateAll [] (load_checkpoint w uid tid)) ("question") (Val.vStr q))) w hm hup
  cases re with
  | some m =>
      refine ⟨?_, hlen, ?_, ?_⟩
      · have h4 : (stream_run q uid tid ⟨ak, sp, lm, none, none, some m⟩ w).1.get? 4
            = some ⟨"node_output", Val.vObj [("node", Val.vStr ("drafts")),
                ("draft_preview", Val.vStr (draftPreviewOf (draft_node ⟨ak, sp, lm, none, none, some m⟩
                  (search_node ⟨ak, sp, lm, none, none, some m⟩
                    (alSet (updateAll [] (load_checkpoint w uid tid)) ("question") (Val.vStr q))))))]⟩ := rfl
        rw [h4, draftPreviewOf_draft_node]
        rfl
      · exact draft_node_get _ _
      · have hw2 := redisWorld_save_load uid tid
          (draft_node ⟨ak, sp, lm, none, none, some m⟩
            (search_node ⟨ak, sp, lm, none, none, some m⟩
              (alSet (updateAll [] (load_checkpoint w uid tid)) ("question") (Val.vStr q))))
          _ hw1.1 hw1.2.1
        have hload : load_checkpoint
            (stream_run q uid tid ⟨ak, sp, lm, none, none, some m⟩ w).2.2 uid tid
          = draft_node ⟨ak, sp, lm, none, none, some m⟩
              (search_node ⟨ak, sp, lm, none, none, some m⟩
                (alSet (updateAll [] (load_checkpoint w uid tid)) ("question") (Val.vStr q))) :=
          hw2.2.2
        rw [hload]
        exact draft_node_get _ _
  | none =>
      refine ⟨?_, hlen, ?_, ?_⟩
      · have h4 : (stream_run q uid tid ⟨ak, sp, lm, none, none, none⟩ w).1.get? 4
            = some ⟨"node_output", Val.vObj [("node", Val.vStr ("drafts")),
                ("draft_preview", Val.vStr (draftPreviewOf (draft_node ⟨ak, sp, lm, none, none, none⟩
                  (search_node ⟨ak, sp, lm, none, none, none⟩
                    (alSet (updateAll [] (load_checkpoint w uid tid)) ("question") (Val.vStr q))))))]⟩ := rfl
        rw [h4, draftPreviewOf_draft_node]
        rfl
      · have hrep : ∀ st2 : StateMap, alGet (report_node st2) ("draft") = alGet st2 ("draft") :=
          fun st2 => alGet_alSet_ne st2 ("report") ("draft") _ (by decide)
        show alGet (report_node _) ("draft") = _
        rw [hrep]
        exact draft_node_get _ _
      · have hw2 := redisWorld_save_load uid tid
          (draft_node ⟨ak, sp, lm, none, none, none⟩
            (search_node ⟨ak, sp, lm, none, none, none⟩
              (alSet (updateAll [] (load_checkpoint w uid tid)) ("question") (Val.vStr q))))
          _ hw1.1 hw1.2.1
        have hw3 := redisWorld_save_load uid tid
          (report_node (draft_node ⟨ak, sp, lm, none, none, none⟩
            (search_node ⟨ak, sp, lm, none, none, none⟩
              (alSet (updateAll [] (load_checkpoint w uid tid)) ("question") (Val.vStr q)))))
          _ hw2.1 hw2.2.1
        have hload : load_checkpoint
            (stream_run q uid tid ⟨ak, sp, lm, none, none, none⟩ w).2.2 uid tid
          = report_node (draft_node ⟨ak, sp, lm, none, none, none⟩
              (search_node ⟨ak, sp, lm, none, none, none⟩
                (alSet (updateAll [] (load_checkpoint w uid tid)) ("question") (Val.vStr q)))) :=
          hw3.2.2
        rw [hload]
        have hrep : ∀ st2 : StateMap, alGet (report_node st2) ("draft") = alGet st2 ("draft") :=
          fun st2 => alGet_alSet_ne st2 ("report") ("draft") _ (by decide)
        rw [hrep]
        exact draft_node_get _ _

/-- C9 witness: the preview clause at a concrete completing run. -/
theorem c9_draft_preview_truncation_witness :
    (stream_run ("q1") ("u") ("t") c4Env freshWorld).1.get? 4
      = some ⟨"node_output", Val.vObj [("node", Val.vStr ("drafts")),
          ("draft_preview", Val.vStr (pyTake 2000 (fullDraftOf ("q1") ("u") ("t") c4Env freshWorld)))]⟩ :=
  (c9_draft_preview_truncation ("q1") ("u") ("t") c4Env freshWorld rfl rfl rfl rfl).1
section DumpsChars

theorem digitChar_ge (d : Nat) : 32 ≤ (digitChar d).toNat := by
  unfold digitChar
  split <;> decide

theorem natChars_ge (n : Nat) : ∀ c ∈ natChars n, 32 ≤ c.toNat := by
  induction n using natChars.induct with
  | case1 n h =>
      rw [natChars]
      simp only [h, dite_true, List.forall_mem_singleton]
      exact digitChar_ge n
  | case2 n h ih =>
      rw [natChars]
      simp only [h, dite_false, List.forall_mem_append, List.forall_mem_singleton]
      exact ⟨ih, digitChar_ge _⟩

theorem intChars_ge (n : Int) : ∀ c ∈ intChars n, 32 ≤ c.toNat := by
  unfold intChars
  split
  · simp only [List.forall_mem_cons]
    exact ⟨by decide, natChars_ge _⟩
  · exact natChars_ge _

theorem hexDigit_ge (d : Nat) : 32 ≤ (hexDigit d).toNat := by
  unfold hexDigit
  split <;> decide

theorem escChar_ge (c : Char) : ∀ d ∈ escChar c, 32 ≤ d.toNat := by
  unfold escChar
  split_ifs with h1 h2 h3 h4 h5 h6 h7 h8
  · decide
  · decide
  · decide
  · decide
  · decide
  · decide
  · decide
  · simp only [hexFour, List.forall_mem_cons]
    exact ⟨by decide, by decide, hexDigit_ge _, hexDigit_ge _, hexDigit_ge _,
           hexDigit_ge _, List.forall_mem_nil _⟩
  · simp only [List.forall_mem_singleton]
    omega

theorem escL_ge (s : List Char) : ∀ d ∈ escL s, 32 ≤ d.toNat := by
  intro d hd
  rw [escL, List.mem_flatMap] at hd
  obtain ⟨c, _, hc⟩ := hd
  exact escChar_ge c d hc

mutual
theorem dumpsL_ge : ∀ v : Val, ∀ c ∈ dumpsL v, 32 ≤ c.toNat
  | .vNull => by decide
  | .vBool true => by decide
  | .vBool false => by decide
  | .vNum n => intChars_ge n
  | .vStr s => by
      rw [dumpsL]
      simp only [List.forall_mem_cons, List.forall_mem_append, List.forall_mem_singleton]
      exact ⟨by decide, escL_ge _, by decide⟩
  | .vArr xs => by
      rw [dumpsL]
      simp only [List.forall_mem_cons, List.forall_mem_append, List.forall_mem_singleton]
      exact ⟨by decide, dumpsElemsL_ge xs, by decide⟩
  | .vObj l => by
      rw [dumpsL]
      simp only [List.forall_mem_cons, List.forall_mem_append, List.forall_mem_singleton]
      exact ⟨by decide, dumpsMembersL_ge l, by decide⟩
theorem dumpsElemsL_ge : ∀ xs : List Val, ∀ c ∈ dumpsElemsL xs, 32 ≤ c.toNat
  | [] => by rw [dumpsElemsL]; exact fun c h => absurd h (List.not_mem_nil c)
  | [v] => by rw [dumpsElemsL]; exact dumpsL_ge v
  | v :: w :: rest => by
      rw [dumpsElemsL]
      simp only [List.forall_mem_append, List.forall_mem_cons]
      exact ⟨dumpsL_ge v, by decide, by decide, dumpsElemsL_ge (w :: rest)⟩
theorem dumpsMembersL_ge : ∀ l : List (String × Val), ∀ c ∈ dumpsMembersL l, 32 ≤ c.toNat
  | [] => by rw [dumpsMembersL]; exact fun c h => absurd h (List.not_mem_nil c)
  | [(k, v)] => by
      rw [dumpsMembersL]
      simp only [List.forall_mem_cons, List.forall_mem_append]
      exact ⟨⟨by decide, escL_ge _⟩, by decide, by decide, by decide, dumpsL_ge v⟩
  | (k, v) :: m :: rest => by
      rw [dumpsMembersL]
      simp only [List.forall_mem_append, List.forall_mem_cons]
      exact ⟨⟨⟨by decide, escL_ge _⟩, by decide, by decide, by decide, dumpsL_ge v⟩,
             by decide, by decide, dumpsMembersL_ge (m :: rest)⟩
end

theorem dumpsL_no_lf (v : Val) : '\n' ∉ dumpsL v := by
  intro h
  exact absurd (dumpsL_ge v '\n' h) (by decide)

end DumpsChars

section StripSplit

theorem dropWhile_all_append (p : Char → Bool) (t l : List Char)
    (ht : ∀ x ∈ t, p x = true) : (t ++ l).dropWhile p = l.dropWhile p := by
  induction t with
  | nil => rfl
  | cons c cs ih =>
      rw [List.cons_append, List.dropWhile_cons, ht c (List.mem_cons_self c cs)]
      exact ih (fun x hx => ht x (List.mem_cons_of_mem c hx))

theorem stripL_shape (c : Char) (mid : List Char) (d : Char) (t : List Char)
    (hc : isPyWs c = false) (hd : isPyWs d = false) (ht : ∀ x ∈ t, isPyWs x = true) :
    stripL (c :: (mid ++ [d]) ++ t) = c :: (mid ++ [d]) := by
  unfold stripL
  rw [List.cons_append, List.dropWhile_cons, hc]
  simp only [Bool.false_eq_true, if_false]
  rw [show (c :: ((mid ++ [d]) ++ t)).reverse = (t.reverse ++ (d :: (mid.reverse ++ [c]))) by
    simp]
  rw [dropWhile_all_append isPyWs t.reverse _ (fun x hx => ht x (List.mem_reverse.mp hx))]
  rw [List.dropWhile_cons, hd]
  simp

theorem stripL_shape_notrail (c : Char) (mid : List Char) (d : Char)
    (hc : isPyWs c = false) (hd : isPyWs d = false) :
    stripL (c :: (mid ++ [d])) = c :: (mid ++ [d]) := by
  have h := stripL_shape c mid d [] hc hd (fun x hx => absurd hx (List.not_mem_nil x))
  rwa [List.append_nil] at h

theorem rstripL_append_nonws (l : List Char) (c : Char) (hc : isPyWs c = false) :
    rstripL (l ++ [c]) = l ++ [c] := by
  unfold rstripL
  rw [List.reverse_append]
  simp only [List.reverse_cons, List.reverse_nil, List.nil_append, List.singleton_append]
  rw [List.dropWhile_cons, hc]
  simp

theorem sseSplitAux_no_lf : ∀ (cs acc : List Char) (fuel : Nat), '\n' ∉ cs →
    cs.length < fuel → sseSplitAux fuel cs acc = [acc.reverse ++ cs] := by
  intro cs
  induction cs with
  | nil =>
      intro acc fuel _ hf
      cases fuel with
      | zero => omega
      | succ f => simp [sseSplitAux]
  | cons c rest ih =>
      intro acc fuel h hf
      simp only [List.mem_cons, not_or] at h
      cases fuel with
      | zero => omega
      | succ f =>
          have hc : ¬ (c = '\n') := fun he => h.1 he.symm
          simp only [sseSplitAux]
          rw [if_neg hc, ih (c :: acc) f h.2 (by simpa using hf)]
          simp

theorem sseSplit_no_lf (cs : List Char) (h : '\n' ∉ cs) : sseSplit cs = [cs] := by
  unfold sseSplit
  rw [sseSplitAux_no_lf cs [] (cs.length + 1) h (by omega)]
  rfl

theorem splitNlAux_no_lf : ∀ (cs acc : List Char), '\n' ∉ cs →
    splitNlAux cs acc = [acc.reverse ++ cs] := by
  intro cs
  induction cs with
  | nil => intro acc _; simp [splitNlAux]
  | cons c rest ih =>
      intro acc h
      simp only [List.mem_cons, not_or] at h
      have hc : ¬ (c = '\n') := fun he => h.1 he.symm
      simp only [splitNlAux]
      rw [if_neg hc, ih (c :: acc) h.2]
      simp

theorem splitNl_no_lf (cs : List Char) (h : '\n' ∉ cs) : splitNl cs = [cs] := by
  unfold splitNl
  rw [splitNlAux_no_lf cs [] h]
  rfl

end StripSplit
section ParserSteps

theorem skipWs_cons_nonws (c : Char) (rest : List Char) (h : isJsonWs c = false) :
    skipWs (c :: rest) = c :: rest := by
  simp [skipWs, List.dropWhile_cons, h]

theorem skipWs_cons_ws (c : Char) (rest : List Char) (h : isJsonWs c = true) :
    skipWs (c :: rest) = skipWs rest := by
  simp [skipWs, List.dropWhile_cons, h]

theorem escChar_plain (c : Char) (h1 : c ≠ '"') (h2 : c ≠ '\\') (h3 : 32 ≤ c.toNat) :
    escChar c = [c] := by
  unfold escChar
  rw [if_neg h1, if_neg h2,
    if_neg (show ¬ c = '\n' by intro h; subst h; exact absurd h3 (by decide)),
    if_neg (show ¬ c = '\x0d' by intro h; subst h; exact absurd h3 (by decide)),
    if_neg (show ¬ c = '\t' by intro h; subst h; exact absurd h3 (by decide)),
    if_neg (show ¬ c = '\x08' by intro h; subst h; exact absurd h3 (by decide)),
    if_neg (show ¬ c = '\x0c' by intro h; subst h; exact absurd h3 (by decide)),
    if_neg (show ¬ c.toNat < 32 by omega)]

theorem escL_plain (s : List Char) (hs : ∀ c ∈ s, c ≠ '"' ∧ c ≠ '\\' ∧ 32 ≤ c.toNat) :
    escL s = s := by
  induction s with
  | nil => rfl
  | cons c cs ih =>
      have hc := hs c (List.mem_cons_self c cs)
      show escChar c ++ escL cs = c :: cs
      rw [escChar_plain c hc.1 hc.2.1 hc.2.2,
          ih (fun x hx => hs x (List.mem_cons_of_mem c hx))]
      rfl

theorem parseStrAux_plain (s : List Char)
    (hs : ∀ c ∈ s, c ≠ '"' ∧ c ≠ '\\' ∧ 32 ≤ c.toNat) :
    ∀ (acc rest : List Char),
      parseStrAux acc (s ++ '"' :: rest) = some (String.mk (acc.reverse ++ s), rest) := by
  induction s with
  | nil =>
      intro acc rest
      rw [List.nil_append, List.append_nil]
      unfold parseStrAux
      simp
  | cons c cs ih =>
      intro acc rest
      have hc := hs c (List.mem_cons_self c cs)
      rw [List.cons_append]
      unfold parseStrAux
      have h32 := hc.2.2
      rw [if_neg hc.1, if_neg hc.2.1, if_neg (show ¬ c.toNat < 32 by omega)]
      rw [ih (fun x hx => hs x (List.mem_cons_of_mem c hx)) (c :: acc) rest]
      simp

theorem parseVal_bad_head (fuel : Nat) (c : Char) (rest : List Char)
    (hws : isJsonWs c = false) (h1 : ¬ c = '{') (h2 : ¬ c = '[') (h3 : ¬ c = '"')
    (h4 : ¬ c = 'n') (h5 : ¬ c = 't') (h6 : ¬ c = 'f') (h7 : ¬ c = '-')
    (h8 : isDigitC c = false) :
    parseVal fuel (c :: rest) = none := by
  cases fuel with
  | zero => rfl
  | succ f =>
      simp only [parseVal]
      rw [skipWs_cons_nonws c rest hws]
      simp only [if_neg h1, if_neg h2, if_neg h3, if_neg h4, if_neg h5, if_neg h6, if_neg h7,
        h8, Bool.false_eq_true, if_false]

theorem jsonParse_dhead (rest : List Char) :
    jsonParse (String.mk ('d' :: rest)) = none := by
  unfold jsonParse
  rw [show (String.mk ('d' :: rest)).data = 'd' :: rest from rfl]
  rw [parseVal_bad_head _ 'd' rest (by decide) (by decide) (by decide) (by decide)
    (by decide) (by decide) (by decide) (by decide) (by decide)]

theorem parseVal_obj_step (fuel : Nat) (hf : 0 < fuel) (cs rest : List Char)
    (hcs : skipWs cs = '{' :: rest) :
    parseVal fuel cs
      = (match parseMembers (fuel - 1) rest with
         | some (ms, r) => some (Val.vObj ms, r)
         | none => none) := by
  cases fuel with
  | zero => omega
  | succ f =>
      simp only [parseVal, hcs, Nat.add_sub_cancel]
      simp

theorem parseVal_strval_step (fuel : Nat) (hf : 0 < fuel) (cs : List Char) (t : String)
    (hpl : ∀ c ∈ t.data, c ≠ '"' ∧ c ≠ '\\' ∧ 32 ≤ c.toNat) (rest : List Char)
    (hcs : skipWs cs = '"' :: (t.data ++ '"' :: rest)) :
    parseVal fuel cs = some (Val.vStr t, rest) := by
  cases fuel with
  | zero => omega
  | succ f =>
      simp only [parseVal, hcs]
      rw [parseStrAux_plain t.data hpl [] rest]
      simp

theorem parseMembers_key_step (fuel : Nat) (hf : 0 < fuel) (cs : List Char) (k : String)
    (hk : ∀ c ∈ k.data, c ≠ '"' ∧ c ≠ '\\' ∧ 32 ≤ c.toNat) (rest : List Char)
    (hcs : skipWs cs = '"' :: (k.data ++ '"' :: ':' :: rest)) :
    parseMembers fuel cs
      = (match parseVal (fuel - 1) rest with
         | some (v, r3) =>
             (match skipWs r3 with
              | ',' :: r4 =>
                  (match parseMembers (fuel - 1) r4 with
                   | some ([], _) => none
                   | some (m :: ms, r5) => some ((k, v) :: m :: ms, r5)
                   | none => none)
              | '}' :: r4 => some ([(k, v)], r4)
              | _ => none)
         | none => none) := by
  have hps : parseStrAux [] (k.data ++ '"' :: ':' :: rest) = some (k, ':' :: rest) := by
    rw [parseStrAux_plain k.data hk [] (':' :: rest)]
    rfl
  cases fuel with
  | zero => omega
  | succ f =>
      simp only [parseMembers, hcs, Nat.add_sub_cancel]
      rw [hps]
      simp only [skipWs_cons_nonws ':' rest (by decide)]
      simp

end ParserSteps
section FrameAnalysis

theorem evObj_eq (ev : EventRec) :
    evObj ev = Val.vObj [("event", Val.vStr ev.etype), ("payload", ev.payload)] := rfl

theorem evframe_shape (t : String) (hpl : StrPlain t) (p : Val) :
    dumpsL (evObj ⟨t, p⟩)
      = '{' :: '"' :: (("event").data ++ '"' :: ':' :: ' ' :: '"' :: (t.data
          ++ '"' :: ',' :: ' ' :: '"' :: (("payload").data ++ '"' :: ':'
          :: ' ' :: (dumpsL p ++ ['}'])))) := by
  rw [evObj_eq]
  rw [dumpsL]
  rw [dumpsMembersL, dumpsMembersL]
  rw [dumpsL]
  rw [escL_plain (("event").data) (by decide), escL_plain (("payload").data) (by decide),
      escL_plain t.data hpl]
  simp [List.append_assoc]

theorem parse_evframe_aux (t : String) (hpl : StrPlain t) (p : Val) (F : Nat) (hF : 4 ≤ F)
    (v : Val) (r : List Char)
    (hv : parseVal F ('{' :: '"' :: (("event").data ++ '"' :: ':' :: ' ' :: '"' :: (t.data
          ++ '"' :: ',' :: ' ' :: '"' :: (("payload").data ++ '"' :: ':'
          :: ' ' :: (dumpsL p ++ ['}']))))) = some (v, r)) :
    ∃ l, v = Val.vObj l ∧ 2 ≤ l.length := by
  have hpl2 : ∀ c ∈ t.data, c ≠ '"' ∧ c ≠ '\\' ∧ 32 ≤ c.toNat := hpl
  rw [parseVal_obj_step F (by omega) _ _ (skipWs_cons_nonws _ _ (by decide))] at hv
  rw [parseMembers_key_step (F - 1) (by omega) _ ("event") (by decide) _
      (skipWs_cons_nonws _ _ (by decide))] at hv
  rw [parseVal_strval_step (F - 1 - 1) (by omega) _ t hpl2 _
      (by rw [skipWs_cons_ws _ _ (by decide)]; exact skipWs_cons_nonws _ _ (by decide))] at hv
  have hv2 : (match
      (match parseMembers (F - 1 - 1)
          (' ' :: '"' :: (("payload").data ++ '"' :: ':' :: ' ' :: (dumpsL p ++ ['}']))) with
       | some ([], _) => none
       | some (m :: ms, r5) => some ((("event" : String), Val.vStr t) :: m :: ms, r5)
       | none => none) with
     | some (ms, r0) => some (Val.vObj ms, r0)
     | none => (none : Option (Val × List Char))) = some (v, r) := hv
  split at hv2
  next x ms r0 heq =>
    injection hv2 with hv2a
    injection hv2a with hva hvb
    subst hva
    split at heq
    next x2 r5 heq2 => exact Option.noConfusion heq
    next x2 m ms2 r5 heq2 =>
      injection heq with heqa
      injection heqa with hma hmb
      subst hma
      exact ⟨_, rfl, by simp⟩
    next heq2 => exact Option.noConfusion heq
  next heq => exact Option.noConfusion hv2

end FrameAnalysis
section FrameParse

theorem evframe_exists (t : String) (hpl : StrPlain t) (p : Val) :
    ∃ E, dumpsL (evObj ⟨t, p⟩) = '{' :: (E ++ ['}']) := by
  refine ⟨'"' :: (("event").data ++ '"' :: ':' :: ' ' :: '"' :: (t.data
      ++ '"' :: ',' :: ' ' :: '"' :: (("payload").data ++ '"' :: ':'
      :: ' ' :: dumpsL p))), ?_⟩
  rw [evframe_shape t hpl p]
  simp

theorem sseString_data (e : EventRec) :
    (sseString e).data
      = ('d' :: 'a' :: 't' :: 'a' :: ':' :: ' ' :: [])
          ++ (dumpsL (evObj e) ++ ['\n', '\n']) := rfl

theorem jsonParse_frame_obj (t : String) (hpl : StrPlain t) (p : Val) (v : Val)
    (hv : jsonParse (String.mk (dumpsL (evObj ⟨t, p⟩))) = some v) :
    ∃ l, v = Val.vObj l ∧ 2 ≤ l.length := by
  have hlen : 3 ≤ (dumpsL (evObj ⟨t, p⟩)).length := by
    rw [evframe_shape t hpl p]
    simp
  unfold jsonParse at hv
  rw [show (String.mk (dumpsL (evObj ⟨t, p⟩))).data = dumpsL (evObj ⟨t, p⟩) from rfl] at hv
  split at hv
  next x v0 r heq =>
    split at hv
    next hws =>
      injection hv with hv1
      subst hv1
      rw [evframe_shape t hpl p] at heq
      exact parse_evframe_aux t hpl p _
        (by simp only [List.length_cons, List.length_append]; omega) v0 r heq
    next hws => exact Option.noConfusion hv
  next heq => exact Option.noConfusion hv

theorem handleBlock_frame (t : String) (hpl : StrPlain t) (p : Val) :
    ∀ x ∈ handleBlock
        (('d' :: 'a' :: 't' :: 'a' :: ':' :: ' ' :: []) ++ dumpsL (evObj ⟨t, p⟩)),
      x ≠ endObj := by
  obtain ⟨E, hE⟩ := evframe_exists t hpl p
  have hnolf : '\n' ∉ dumpsL (evObj ⟨t, p⟩) := dumpsL_no_lf _
  have hBform : ('d' :: 'a' :: 't' :: 'a' :: ':' :: ' ' :: []) ++ dumpsL (evObj ⟨t, p⟩)
      = 'd' :: (('a' :: 't' :: 'a' :: ':' :: ' ' :: '{' :: E) ++ ['}']) := by
    rw [hE]
    simp
  have hnolfB : '\n' ∉ ('d' :: 'a' :: 't' :: 'a' :: ':' :: ' ' :: [])
      ++ dumpsL (evObj ⟨t, p⟩) := by
    intro hmem
    rcases List.mem_append.mp hmem with h1 | h2
    · simp at h1
    · exact hnolf h2
  have hsplit : splitNl (('d' :: 'a' :: 't' :: 'a' :: ':' :: ' ' :: [])
      ++ dumpsL (evObj ⟨t, p⟩))
      = [('d' :: 'a' :: 't' :: 'a' :: ':' :: ' ' :: []) ++ dumpsL (evObj ⟨t, p⟩)] :=
    splitNl_no_lf _ hnolfB
  have hrstrip : rstripL (('d' :: 'a' :: 't' :: 'a' :: ':' :: ' ' :: [])
      ++ dumpsL (evObj ⟨t, p⟩))
      = ('d' :: 'a' :: 't' :: 'a' :: ':' :: ' ' :: []) ++ dumpsL (evObj ⟨t, p⟩) := by
    rw [hBform]
    rw [show 'd' :: (('a' :: 't' :: 'a' :: ':' :: ' ' :: '{' :: E) ++ ['}'])
        = ('d' :: 'a' :: 't' :: 'a' :: ':' :: ' ' :: '{' :: E) ++ ['}'] from by simp]
    exact rstripL_append_nonws _ '}' (by decide)
  have hsdt : stripDataTag (('d' :: 'a' :: 't' :: 'a' :: ':' :: ' ' :: [])
      ++ dumpsL (evObj ⟨t, p⟩)) = dumpsL (evObj ⟨t, p⟩) := by
    unfold stripDataTag
    rw [show (('d' :: 'a' :: 't' :: 'a' :: ':' :: ' ' :: [])
        ++ dumpsL (evObj ⟨t, p⟩)).dropWhile isPyWs
        = ('d' :: 'a' :: 't' :: 'a' :: ':' :: ' ' :: []) ++ dumpsL (evObj ⟨t, p⟩) from by
      rw [List.cons_append, List.dropWhile_cons]
      rw [show isPyWs 'd' = false from by decide]
      simp]
    show (if ((('d' :: 'a' :: 't' :: 'a' :: ':' :: ' ' :: [])
          ++ dumpsL (evObj ⟨t, p⟩)).take 5).map Char.toLower = ("data:").data
        then ((('d' :: 'a' :: 't' :: 'a' :: ':' :: ' ' :: [])
          ++ dumpsL (evObj ⟨t, p⟩)).drop 5).dropWhile isPyWs
        else ('d' :: 'a' :: 't' :: 'a' :: ':' :: ' ' :: []) ++ dumpsL (evObj ⟨t, p⟩))
      = dumpsL (evObj ⟨t, p⟩)
    rw [show ((('d' :: 'a' :: 't' :: 'a' :: ':' :: ' ' :: [])
        ++ dumpsL (evObj ⟨t, p⟩)).take 5).map Char.toLower = ("data:").data from by
      rw [List.take_append_of_le_length (by simp)]
      decide]
    rw [if_pos rfl]
    rw [List.drop_append_of_le_length (by simp)]
    rw [show ('d' :: 'a' :: 't' :: 'a' :: ':' :: ' ' :: []).drop 5 = [' '] from rfl]
    rw [List.singleton_append, List.dropWhile_cons]
    rw [show isPyWs ' ' = true from by decide]
    simp only [if_true]
    rw [hE, List.dropWhile_cons]
    rw [show isPyWs '{' = false from by decide]
    simp
  have hstripD : stripL (dumpsL (evObj ⟨t, p⟩)) = dumpsL (evObj ⟨t, p⟩) := by
    rw [hE]
    exact stripL_shape_notrail '{' E '}' (by decide) (by decide)
  have hlen2 : 2 ≤ (dumpsL (evObj ⟨t, p⟩)).length := by
    rw [hE]
    simp
  intro x hx
  unfold handleBlock at hx
  rw [hsplit] at hx
  rw [show [('d' :: 'a' :: 't' :: 'a' :: ':' :: ' ' :: []) ++ dumpsL (evObj ⟨t, p⟩)].map rstripL
      = [('d' :: 'a' :: 't' :: 'a' :: ':' :: ' ' :: []) ++ dumpsL (evObj ⟨t, p⟩)] from by
    rw [List.map_cons, hrstrip]
    rfl] at hx
  rw [show [('d' :: 'a' :: 't' :: 'a' :: ':' :: ' ' :: [])
        ++ dumpsL (evObj ⟨t, p⟩)].filter (fun l => l ≠ [])
      = [('d' :: 'a' :: 't' :: 'a' :: ':' :: ' ' :: []) ++ dumpsL (evObj ⟨t, p⟩)] from by
    simp] at hx
  rw [List.map_cons, hsdt, List.map_nil] at hx
  have hinter : List.intercalate ['\n'] [dumpsL (evObj ⟨t, p⟩)] = dumpsL (evObj ⟨t, p⟩) := by
    simp [List.intercalate]
  have hDne : ¬ dumpsL (evObj ⟨t, p⟩) = [] := by
    rw [hE]
    simp
  simp only [hinter, hstripD, if_neg hDne] at hx
  cases hjp : jsonParse (String.mk (dumpsL (evObj ⟨t, p⟩))) with
  | some v =>
      simp only [hjp] at hx
      obtain ⟨l, rfl, hl⟩ := jsonParse_frame_obj t hpl p v hjp
      rw [List.mem_singleton] at hx
      subst hx
      intro hcon
      unfold endObj at hcon
      injection hcon with h1
      rw [h1] at hl
      simp at hl
  | none =>
      have hfirst : firstBraceIdx (dumpsL (evObj ⟨t, p⟩)) = some 0 := by
        unfold firstBraceIdx
        rw [hE]
        rw [List.findIdx?_cons]
        simp
      have hlast : lastBraceIdx (dumpsL (evObj ⟨t, p⟩))
          = some ((dumpsL (evObj ⟨t, p⟩)).length - 1) := by
        unfold lastBraceIdx
        rw [show (dumpsL (evObj ⟨t, p⟩)).reverse
            = '}' :: ('{' :: E).reverse from by rw [hE]; simp]
        rw [List.findIdx?_cons]
        simp
      have hlt : 0 < (dumpsL (evObj ⟨t, p⟩)).length - 1 := by omega
      have hcand : List.take ((dumpsL (evObj ⟨t, p⟩)).length - 1 + 1 - 0)
            (List.drop 0 (dumpsL (evObj ⟨t, p⟩)))
          = dumpsL (evObj ⟨t, p⟩) := by
        rw [List.drop_zero]
        rw [show (dumpsL (evObj ⟨t, p⟩)).length - 1 + 1 - 0
            = (dumpsL (evObj ⟨t, p⟩)).length from by omega]
        simp
      simp only [hjp, hfirst, hlast, if_pos hlt, hcand] at hx
      rw [List.mem_singleton] at hx
      subst hx
      intro hcon
      unfold endObj at hcon
      injection hcon with h1
      injection h1 with h2 h3
      injection h2 with h4 h5
      exact absurd h4 (by decide)

theorem processText_frame (t : String) (hpl : StrPlain t) (p : Val) :
    ∀ x ∈ processText (sseString ⟨t, p⟩), x ≠ endObj := by
  obtain ⟨E, hE⟩ := evframe_exists t hpl p
  have hnolf : '\n' ∉ dumpsL (evObj ⟨t, p⟩) := dumpsL_no_lf _
  have hstrip : stripL (sseString ⟨t, p⟩).data
      = ('d' :: 'a' :: 't' :: 'a' :: ':' :: ' ' :: []) ++ dumpsL (evObj ⟨t, p⟩) := by
    rw [sseString_data]
    rw [show ('d' :: 'a' :: 't' :: 'a' :: ':' :: ' ' :: [])
          ++ (dumpsL (evObj ⟨t, p⟩) ++ ['\n', '\n'])
        = ('d' :: (('a' :: 't' :: 'a' :: ':' :: ' ' :: '{' :: E) ++ ['}'])) ++ ['\n', '\n']
        from by rw [hE]; simp]
    rw [stripL_shape 'd' ('a' :: 't' :: 'a' :: ':' :: ' ' :: '{' :: E) '}'
        ['\n', '\n'] (by decide) (by decide) (by decide)]
    rw [hE]
    simp
  have hnolfB : '\n' ∉ ('d' :: 'a' :: 't' :: 'a' :: ':' :: ' ' :: [])
      ++ dumpsL (evObj ⟨t, p⟩) := by
    intro hmem
    rcases List.mem_append.mp hmem with h1 | h2
    · simp at h1
    · exact hnolf h2
  have hABne : ¬ ('d' :: 'a' :: 't' :: 'a' :: ':' :: ' ' :: [])
      ++ dumpsL (evObj ⟨t, p⟩) = [] := by simp
  have hjpAB : jsonParse (String.mk (('d' :: 'a' :: 't' :: 'a' :: ':' :: ' ' :: [])
      ++ dumpsL (evObj ⟨t, p⟩))) = none :=
    jsonParse_dhead (('a' :: 't' :: 'a' :: ':' :: ' ' :: []) ++ dumpsL (evObj ⟨t, p⟩))
  intro x hx
  unfold processText at hx
  simp only [hstrip] at hx
  rw [if_neg hABne, hjpAB] at hx
  unfold processRawChunk at hx
  rw [sseSplit_no_lf _ hnolfB] at hx
  rw [show [('d' :: 'a' :: 't' :: 'a' :: ':' :: ' ' :: []) ++ dumpsL (evObj ⟨t, p⟩)].map stripL
      = [('d' :: 'a' :: 't' :: 'a' :: ':' :: ' ' :: []) ++ dumpsL (evObj ⟨t, p⟩)] from by
    rw [List.map_cons, List.map_nil]
    rw [show stripL (('d' :: 'a' :: 't' :: 'a' :: ':' :: ' ' :: [])
        ++ dumpsL (evObj ⟨t, p⟩))
        = ('d' :: 'a' :: 't' :: 'a' :: ':' :: ' ' :: []) ++ dumpsL (evObj ⟨t, p⟩) from by
      rw [show ('d' :: 'a' :: 't' :: 'a' :: ':' :: ' ' :: []) ++ dumpsL (evObj ⟨t, p⟩)
          = 'd' :: (('a' :: 't' :: 'a' :: ':' :: ' ' :: '{' :: E) ++ ['}']) from by
        rw [hE]; simp]
      exact stripL_shape_notrail 'd' _ '}' (by decide) (by decide)]] at hx
  rw [show [('d' :: 'a' :: 't' :: 'a' :: ':' :: ' ' :: [])
        ++ dumpsL (evObj ⟨t, p⟩)].filter (fun b => b ≠ [])
      = [('d' :: 'a' :: 't' :: 'a' :: ':' :: ' ' :: []) ++ dumpsL (evObj ⟨t, p⟩)] from by
    simp] at hx
  rw [show [('d' :: 'a' :: 't' :: 'a' :: ':' :: ' ' :: [])
        ++ dumpsL (evObj ⟨t, p⟩)].flatMap handleBlock
      = handleBlock (('d' :: 'a' :: 't' :: 'a' :: ':' :: ' ' :: [])
          ++ dumpsL (evObj ⟨t, p⟩)) from by
    simp] at hx
  exact handleBlock_frame t hpl p x hx

end FrameParse
theorem stream_etypes_plain (q uid tid : String) (env : PipeEnv) (w : World) :
    ∀ e ∈ (stream_run q uid tid env w).1, StrPlain e.etype := by
  obtain ⟨a, sr, l, se, de, re⟩ := env
  intro e he
  have hmem := List.mem_map_of_mem (fun ev => ev.etype) he
  cases se with
  | some m =>
      rw [show ((stream_run q uid tid ⟨a, sr, l, some m, de, re⟩ w).1.map
            (fun ev => ev.etype))
          = ["started", "status", "error"] from rfl] at hmem
      have hsub : ∀ s ∈ ["started", "status", "error"], StrPlain s := by unfold StrPlain; decide
      exact hsub _ hmem
  | none =>
      cases de with
      | some m =>
          rw [show ((stream_run q uid tid ⟨a, sr, l, none, some m, re⟩ w).1.map
                (fun ev => ev.etype))
              = ["started", "status", "node_output", "status", "error"] from rfl] at hmem
          have hsub : ∀ s ∈ ["started", "status", "node_output", "status", "error"],
              StrPlain s := by unfold StrPlain; decide
          exact hsub _ hmem
      | none =>
          cases re with
          | some m =>
              rw [show ((stream_run q uid tid ⟨a, sr, l, none, none, some m⟩ w).1.map
                    (fun ev => ev.etype))
                  = ["started", "status", "node_output", "status", "node_output",
                      "status", "error"] from rfl] at hmem
              have hsub : ∀ s ∈ ["started", "status", "node_output", "status",
                  "node_output", "status", "error"], StrPlain s := by unfold StrPlain; decide
              exact hsub _ hmem
          | none =>
              rw [show ((stream_run q uid tid ⟨a, sr, l, none, none, none⟩ w).1.map
                    (fun ev => ev.etype))
                  = ["started", "status", "node_output", "status", "node_output",
                      "status", "node_output", "finished"] from rfl] at hmem
              have hsub : ∀ s ∈ ["started", "status", "node_output", "status",
                  "node_output", "status", "node_output", "finished"], StrPlain s := by
                unfold StrPlain
                decide
              exact hsub _ hmem

/-- C2: for every decoded job carrying a non-empty output channel, the
worker publishes a non-empty sequence to that channel whose last
publication is the `end_of_stream` sentinel, and no earlier publication
equals the sentinel — on every path: for any reachable stream (any
environment, any persistence world), any executor cut-off point `k`
(the prefix of SSE chunks yielded before an exception), and whether or
not the executor raised (`exn`). -/
theorem c2_end_of_stream_once_last (job : Job) (ch : String) (hch : job.channel = some ch)
    (hne : ¬ ch = "") (q uid tid : String) (env : PipeEnv) (w : World) (k : Nat)
    (exn : Option String) :
    handleJob job (((stream_run q uid tid env w).1.take k).map sseString) exn ≠ [] ∧
    (handleJob job (((stream_run q uid tid env w).1.take k).map sseString) exn).getLast?
        = some (ch, endObj) ∧
    ∀ pr ∈ (handleJob job
        (((stream_run q uid tid env w).1.take k).map sseString) exn).dropLast,
      pr.1 = ch ∧ pr.2 ≠ endObj := by
  have hfull : handleJob job (((stream_run q uid tid env w).1.take k).map sseString) exn
      = ((ch, infoObj) ::
          (((((stream_run q uid tid env w).1.take k).map sseString).flatMap
              (fun s => processEvent (.text s))).map (fun v => (ch, v))
            ++ (match exn with | some m => [(ch, errObjW m)] | none => [])))
        ++ [(ch, endObj)] := by
    unfold handleJob
    simp only [hch]
    rw [if_neg hne]
    rfl
  rw [hfull]
  refine ⟨by simp, ?_, ?_⟩
  · exact List.getLast?_concat _
  · rw [List.dropLast_concat]
    intro pr hpr
    rcases List.mem_cons.mp hpr with h | h
    · subst h
      refine ⟨rfl, ?_⟩
      intro hcon
      unfold infoObj endObj at hcon
      injection hcon with h1
      injection h1 with h2 h3
      exact List.noConfusion h3
    · rcases List.mem_append.mp h with hL | hEx
      · rcases List.mem_map.mp hL with ⟨v, hv, rfl⟩
        refine ⟨rfl, ?_⟩
        rcases List.mem_flatMap.mp hv with ⟨s, hs, hvs⟩
        rcases List.mem_map.mp hs with ⟨ev, hev, rfl⟩
        have hplain : StrPlain ev.etype :=
          stream_etypes_plain q uid tid env w ev (List.take_subset k _ hev)
        exact processText_frame ev.etype hplain ev.payload v hvs
      · cases exn with
        | none => simp at hEx
        | some m =>
            rw [List.mem_singleton] at hEx
            subst hEx
            refine ⟨rfl, ?_⟩
            intro hcon
            unfold errObjW endObj at hcon
            injection hcon with h1
            injection h1 with h2 h3
            exact List.noConfusion h3

theorem c2_end_of_stream_once_last_witness :
    handleJob ⟨some ("u"), some ("t"), some ("q"), some ("chan")⟩
        (((stream_run ("q") ("u") ("t") c4Env freshWorld).1.take 8).map sseString) none ≠ [] ∧
    (handleJob ⟨some ("u"), some ("t"), some ("q"), some ("chan")⟩
        (((stream_run ("q") ("u") ("t") c4Env freshWorld).1.take 8).map sseString)
        none).getLast? = some (("chan"), endObj) ∧
    ∀ pr ∈ (handleJob ⟨some ("u"), some ("t"), some ("q"), some ("chan")⟩
        (((stream_run ("q") ("u") ("t") c4Env freshWorld).1.take 8).map sseString)
        none).dropLast,
      pr.1 = "chan" ∧ pr.2 ≠ endObj :=
  c2_end_of_stream_once_last ⟨some ("u"), some ("t"), some ("q"), some ("chan")⟩ ("chan")
    rfl (by decide) ("q") ("u") ("t") c4Env freshWorld 8 none
